import Mathlib

-- Verification of the flight-path motion engine of the portfolio scene.
-- The embedded code is the canonical Experience component of
-- src/components/three/Scene.tsx (the variant importing its tuning values
-- from src/utils/sceneConfig.ts), together with the THREE.js math helpers
-- it calls (MathUtils.lerp, Vector3, Quaternion, Matrix4.lookAt,
-- CatmullRomCurve3 with chordal parametrization).  Real numbers stand for
-- JavaScript doubles, so every statement is about exact real arithmetic.

open scoped Classical

noncomputable section

namespace Portfolio

/-- 3D vector, mirroring THREE.Vector3. -/
@[ext]
structure Vec3 where
  x : ℝ
  y : ℝ
  z : ℝ

/-- Quaternion, mirroring THREE.Quaternion (components x, y, z, w). -/
@[ext]
structure Quat where
  x : ℝ
  y : ℝ
  z : ℝ
  w : ℝ

/-- The zero vector (THREE.Vector3 default constructor). -/
def vzero : Vec3 := ⟨0, 0, 0⟩

/-- Vector addition (Vector3.add). -/
def vadd (a b : Vec3) : Vec3 := ⟨a.x + b.x, a.y + b.y, a.z + b.z⟩

/-- Vector subtraction (Vector3.subVectors a b). -/
def vsub (a b : Vec3) : Vec3 := ⟨a.x - b.x, a.y - b.y, a.z - b.z⟩

/-- Scalar multiple (Vector3.multiplyScalar). -/
def vscale (c : ℝ) (a : Vec3) : Vec3 := ⟨c * a.x, c * a.y, c * a.z⟩

/-- Dot product (Vector3.dot). -/
def dotV (a b : Vec3) : ℝ := a.x * b.x + a.y * b.y + a.z * b.z

/-- Cross product (Vector3.crossVectors a b). -/
def crossV (a b : Vec3) : Vec3 :=
  ⟨a.y * b.z - a.z * b.y, a.z * b.x - a.x * b.z, a.x * b.y - a.y * b.x⟩

/-- Squared length (Vector3.lengthSq). -/
def lengthSqV (a : Vec3) : ℝ := a.x * a.x + a.y * a.y + a.z * a.z

/-- Length (Vector3.length). -/
def lengthV (a : Vec3) : ℝ := Real.sqrt (lengthSqV a)

/-- Vector3.normalize: divideScalar (length or 1 when the length is 0),
so the zero vector stays the zero vector. -/
def normalizeV (a : Vec3) : Vec3 :=
  if lengthV a = 0 then a else vscale (1 / lengthV a) a

/-- Vector3.lerpVectors v1 v2 alpha, also Vector3.lerp (this = a, v = b). -/
def lerpV (a b : Vec3) (t : ℝ) : Vec3 :=
  ⟨a.x + (b.x - a.x) * t, a.y + (b.y - a.y) * t, a.z + (b.z - a.z) * t⟩

/-- THREE.MathUtils.lerp x y t = (1 - t) * x + t * y. -/
def mlerp (x y t : ℝ) : ℝ := (1 - t) * x + t * y

/-- Math.sign. -/
def jsSign (x : ℝ) : ℝ := if 0 < x then 1 else if x < 0 then -1 else 0

/-- Truncation toward zero, as used by the JavaScript remainder operator. -/
def jstrunc (x : ℝ) : ℝ := if 0 ≤ x then (⌊x⌋ : ℝ) else (⌈x⌉ : ℝ)

/-- JavaScript remainder x % 1 (sign follows the dividend). -/
def jsfmod1 (x : ℝ) : ℝ := x - jstrunc x

/-- Math.atan2 y x (signed zeros ignored: a double that is 0 is one value). -/
def jsAtan2 (y x : ℝ) : ℝ :=
  if 0 < x then Real.arctan (y / x)
  else if x < 0 then
    (if 0 ≤ y then Real.arctan (y / x) + Real.pi else Real.arctan (y / x) - Real.pi)
  else if 0 < y then Real.pi / 2
  else if y < 0 then -(Real.pi / 2)
  else 0

/-- Number.EPSILON = 2 ^ (-52). -/
def numberEPSILON : ℝ := 1 / 2 ^ 52

/-- THREE.Quaternion default constructor (0,0,0,1). -/
def qIdentity : Quat := ⟨0, 0, 0, 1⟩

/-- Componentwise negation of a quaternion. -/
def qNeg (q : Quat) : Quat := ⟨-q.x, -q.y, -q.z, -q.w⟩

/-- Componentwise scalar multiple of a quaternion. -/
def qScale (c : ℝ) (q : Quat) : Quat := ⟨c * q.x, c * q.y, c * q.z, c * q.w⟩

/-- Componentwise sum of two quaternions. -/
def qAdd (p q : Quat) : Quat := ⟨p.x + q.x, p.y + q.y, p.z + q.z, p.w + q.w⟩

/-- Quaternion dot product (Quaternion.dot). -/
def qDot (p q : Quat) : ℝ := p.w * q.w + p.x * q.x + p.y * q.y + p.z * q.z

/-- Squared norm of a quaternion (Quaternion.lengthSq). -/
def qNormSq (q : Quat) : ℝ := q.x * q.x + q.y * q.y + q.z * q.z + q.w * q.w

/-- Hamilton product, THREE.Quaternion.multiplyQuaternions a b
(Quaternion.multiply q is multiplyQuaternions this q). -/
def qMul (a b : Quat) : Quat :=
  ⟨a.x * b.w + a.w * b.x + a.y * b.z - a.z * b.y,
   a.y * b.w + a.w * b.y + a.z * b.x - a.x * b.z,
   a.z * b.w + a.w * b.z + a.x * b.y - a.y * b.x,
   a.w * b.w - a.x * b.x - a.y * b.y - a.z * b.z⟩

/-- THREE.Quaternion.setFromAxisAngle axis angle. -/
def qFromAxisAngle (axis : Vec3) (angle : ℝ) : Quat :=
  ⟨axis.x * Real.sin (angle / 2), axis.y * Real.sin (angle / 2),
   axis.z * Real.sin (angle / 2), Real.cos (angle / 2)⟩

/-- THREE.Quaternion.normalize: a zero-length quaternion becomes the
identity, otherwise the quaternion is divided by its length. -/
def qNormalizeThree (q : Quat) : Quat :=
  if Real.sqrt (qNormSq q) = 0 then qIdentity
  else qScale (1 / Real.sqrt (qNormSq q)) q

/-- THREE.Quaternion.slerp qb t, with all of its branches: early outs at
t = 0 and t = 1, sign flip of qb when the dot product is negative, early
out when the (flipped) dot product reaches 1, a normalized linear blend
when the interpolation angle is below Number.EPSILON, and the sincos form
otherwise. -/
def qSlerp (q qb : Quat) (t : ℝ) : Quat :=
  if t = 0 then q
  else if t = 1 then qb
  else
    let cosHalf0 := q.w * qb.w + q.x * qb.x + q.y * qb.y + q.z * qb.z
    let qm := if cosHalf0 < 0 then qNeg qb else qb
    let cosHalf := if cosHalf0 < 0 then -cosHalf0 else cosHalf0
    if 1 ≤ cosHalf then q
    else
      let sqrSinHalf := 1 - cosHalf ^ 2
      if sqrSinHalf ≤ numberEPSILON then
        qNormalizeThree (qAdd (qScale (1 - t) q) (qScale t qm))
      else
        let sinHalf := Real.sqrt sqrSinHalf
        let halfTheta := jsAtan2 sinHalf cosHalf
        qAdd (qScale (Real.sin ((1 - t) * halfTheta) / sinHalf) q)
             (qScale (Real.sin (t * halfTheta) / sinHalf) qm)

/-- THREE.Vector3.applyQuaternion q. -/
def applyQuaternionV (v : Vec3) (q : Quat) : Vec3 :=
  ⟨v.x + q.w * (2 * (q.y * v.z - q.z * v.y)) + q.y * (2 * (q.x * v.y - q.y * v.x))
     - q.z * (2 * (q.z * v.x - q.x * v.z)),
   v.y + q.w * (2 * (q.z * v.x - q.x * v.z)) + q.z * (2 * (q.y * v.z - q.z * v.y))
     - q.x * (2 * (q.x * v.y - q.y * v.x)),
   v.z + q.w * (2 * (q.x * v.y - q.y * v.x)) + q.x * (2 * (q.z * v.x - q.x * v.z))
     - q.y * (2 * (q.y * v.z - q.z * v.y))⟩

/-- Orthonormal basis produced by THREE.Matrix4.lookAt: the three columns
(x, y, z) of the rotation part. -/
@[ext]
structure Basis3 where
  bX : Vec3
  bY : Vec3
  bZ : Vec3

/-- The z column of Matrix4.lookAt before the parallel guard:
normalize(eye - target), with z set to (0,0,1) pre-normalization when eye
and target coincide. -/
def lookAtZ (eye target : Vec3) : Vec3 :=
  let z0 := vsub eye target
  normalizeV (if lengthSqV z0 = 0 then Vec3.mk z0.x z0.y 1 else z0)

/-- The final z column of Matrix4.lookAt: when up and z are parallel
(cross product of zero length), z is nudged by 0.0001 in x or z depending
on up and renormalized. -/
def lookAtZ2 (up z2 : Vec3) : Vec3 :=
  if lengthSqV (crossV up z2) = 0 then
    (if |up.z| = 1 then normalizeV (Vec3.mk (z2.x + 0.0001) z2.y z2.z)
     else normalizeV (Vec3.mk z2.x z2.y (z2.z + 0.0001)))
  else z2

/-- The x column of Matrix4.lookAt before its final normalize: cross(up,
z), recomputed against the nudged z when the guard fired. -/
def lookAtX (up z2 : Vec3) : Vec3 :=
  if lengthSqV (crossV up z2) = 0 then crossV up (lookAtZ2 up z2)
  else crossV up z2

/-- THREE.Matrix4.lookAt eye target up, including both degeneracy guards
(eye = target, and up parallel to the view direction): columns
x = normalize(cross(up, z)), y = cross(z, x), z. -/
def lookAtBasis (eye target up : Vec3) : Basis3 :=
  let z2 := lookAtZ eye target
  let z4 := lookAtZ2 up z2
  let x2 := normalizeV (lookAtX up z2)
  ⟨x2, crossV z4 x2, z4⟩

/-- THREE.Quaternion.setFromRotationMatrix on the rotation matrix whose
columns are the given basis, with its four branches. -/
def quatFromBasis (B : Basis3) : Quat :=
  let m11 := B.bX.x
  let m12 := B.bY.x
  let m13 := B.bZ.x
  let m21 := B.bX.y
  let m22 := B.bY.y
  let m23 := B.bZ.y
  let m31 := B.bX.z
  let m32 := B.bY.z
  let m33 := B.bZ.z
  let tr := m11 + m22 + m33
  if 0 < tr then
    let s := 0.5 / Real.sqrt (tr + 1)
    ⟨(m32 - m23) * s, (m13 - m31) * s, (m21 - m12) * s, 0.25 / s⟩
  else if m22 < m11 ∧ m33 < m11 then
    let s := 2 * Real.sqrt (1 + m11 - m22 - m33)
    ⟨0.25 * s, (m12 + m21) / s, (m13 + m31) / s, (m32 - m23) / s⟩
  else if m33 < m22 then
    let s := 2 * Real.sqrt (1 + m22 - m11 - m33)
    ⟨(m12 + m21) / s, 0.25 * s, (m23 + m32) / s, (m13 - m31) / s⟩
  else
    let s := 2 * Real.sqrt (1 + m33 - m11 - m22)
    ⟨(m13 + m31) / s, (m23 + m32) / s, 0.25 * s, (m21 - m12) / s⟩

-- Tuning constants (src/utils/sceneConfig.ts).

/-- ANIMATION_CONFIG.SCROLL_SMOOTHING. -/
def SCROLL_SMOOTHING : ℝ := 1

/-- ANIMATION_CONFIG.MOVEMENT_SMOOTHING. -/
def MOVEMENT_SMOOTHING : ℝ := 3

/-- CAMERA_CONFIG.HEIGHT. -/
def CAMERA_HEIGHT : ℝ := 1.5

/-- CAMERA_CONFIG.DISTANCE. -/
def CAMERA_DISTANCE : ℝ := 8

/-- PLANE_CONFIG.MAX_BANK_ANGLE. -/
def MAX_BANK_ANGLE : ℝ := 0.8

/-- PLANE_CONFIG.BANK_LERP. -/
def BANK_LERP : ℝ := 0.01

/-- PLANE_CONFIG.PITCH_LERP. -/
def PITCH_LERP : ℝ := 0.1

/-- PLANE_CONFIG.YAW_LERP. -/
def YAW_LERP : ℝ := 0.1

/-- PLANE_CONFIG.ROTATION_LERP. -/
def ROTATION_LERP : ℝ := 0.1

/-- PLANE_CONFIG.LOOK_AHEAD (a sample-index offset). -/
def LOOK_AHEAD : ℤ := 5

/-- PLANE_CONFIG.POSITION_LERP. -/
def POSITION_LERP : ℝ := 0.1

/-- PLANE_CONFIG.MAX_PITCH_ANGLE. -/
def MAX_PITCH_ANGLE : ℝ := 0.4

/-- PLANE_CONFIG.ELEVATION_INFLUENCE. -/
def ELEVATION_INFLUENCE : ℝ := 0.8

/-- The literal gain 5 in targetBankAngle
(-turnDirection * turnAmount * PLANE_CONFIG.MAX_BANK_ANGLE * 5); the spec
calls this multiplier bankGain. -/
def bankGain : ℝ := 5

/-- World up vector (0, 1, 0) used by the frame loop. -/
def worldUp : Vec3 := ⟨0, 1, 0⟩

/-- Fixed camera offset vector (0, CAMERA_HEIGHT, CAMERA_DISTANCE). -/
def cameraOffset0 : Vec3 := ⟨0, CAMERA_HEIGHT, CAMERA_DISTANCE⟩

/-- Array lookup linePoints i.  Indices are integers; an out-of-range
lookup returns the zero vector (never exercised by the theorems, which
prove the indices in range). -/
def getPt (pts : List Vec3) (i : ℤ) : Vec3 :=
  if h : 0 ≤ i ∧ i < (pts.length : ℤ) then
    pts.get ⟨i.toNat, by omega⟩
  else vzero

-- Per-frame state held in refs by the Experience component.

/-- The mutable refs of the Experience component that persist across
frames (smoothScroll, bankAngle, pitchAngle, yawAngle, frameCount,
lastDirection, currentRotation, the plane group position, and the
smoothed camera position and look-at point). -/
structure FlightState where
  frameCount : ℕ
  smoothScroll : ℝ
  bankAngle : ℝ
  pitchAngle : ℝ
  yawAngle : ℝ
  lastDirection : Vec3
  currentRotation : Quat
  planePos : Vec3
  lastPosition : Vec3
  lastLookAt : Vec3

/-- Per-frame external input: scroll.offset and the frame delta. -/
structure FrameInput where
  offset : ℝ
  delta : ℝ

/-- Smoothed scroll value after the frame:
lerp(smoothScroll, scroll.offset, delta * SCROLL_SMOOTHING). -/
def smoothScroll1 (s : FlightState) (inp : FrameInput) : ℝ :=
  mlerp s.smoothScroll inp.offset (inp.delta * SCROLL_SMOOTHING)

-- Sample lookup as a function of the animated progress value p.

/-- curPointIndex = min(floor(p * (length - 1)), length - 2). -/
def curPointIndexAt (pts : List Vec3) (p : ℝ) : ℤ :=
  min ⌊p * ((pts.length : ℝ) - 1)⌋ ((pts.length : ℤ) - 2)

/-- Index of nextPoint: min(curPointIndex + 1, length - 1). -/
def nextPointIndexAt (pts : List Vec3) (p : ℝ) : ℤ :=
  min (curPointIndexAt pts p + 1) ((pts.length : ℤ) - 1)

/-- Index of futurePoint: min(curPointIndex + LOOK_AHEAD, length - 1). -/
def futurePointIndexAt (pts : List Vec3) (p : ℝ) : ℤ :=
  min (curPointIndexAt pts p + LOOK_AHEAD) ((pts.length : ℤ) - 1)

/-- curPoint. -/
def curPointAt (pts : List Vec3) (p : ℝ) : Vec3 :=
  getPt pts (curPointIndexAt pts p)

/-- nextPoint. -/
def nextPointAt (pts : List Vec3) (p : ℝ) : Vec3 :=
  getPt pts (nextPointIndexAt pts p)

/-- futurePoint. -/
def futurePointAt (pts : List Vec3) (p : ℝ) : Vec3 :=
  getPt pts (futurePointIndexAt pts p)

/-- interpolationFactor = (p * (length - 1)) % 1. -/
def interpFactorAt (pts : List Vec3) (p : ℝ) : ℝ :=
  jsfmod1 (p * ((pts.length : ℝ) - 1))

/-- currentPosition = lerpVectors(curPoint, nextPoint, interpolationFactor). -/
def samplePosAt (pts : List Vec3) (p : ℝ) : Vec3 :=
  lerpV (curPointAt pts p) (nextPointAt pts p) (interpFactorAt pts p)

/-- forwardDirection = normalize(nextPoint - curPoint). -/
def forwardDirAt (pts : List Vec3) (p : ℝ) : Vec3 :=
  normalizeV (vsub (nextPointAt pts p) (curPointAt pts p))

/-- futureDirection = normalize(futurePoint - currentPosition). -/
def futureDirAt (pts : List Vec3) (p : ℝ) : Vec3 :=
  normalizeV (vsub (futurePointAt pts p) (samplePosAt pts p))

/-- right = normalize(cross(forwardDirection, worldUp)). -/
def rightAt (pts : List Vec3) (p : ℝ) : Vec3 :=
  normalizeV (crossV (forwardDirAt pts p) worldUp)

/-- horizontalFuture = normalize((futureDirection.x, 0, futureDirection.z)). -/
def horizontalFutureAt (pts : List Vec3) (p : ℝ) : Vec3 :=
  normalizeV ⟨(futureDirAt pts p).x, 0, (futureDirAt pts p).z⟩

/-- turnAmount = acos(min(max(dot(forward, horizontalFuture), -1), 1)). -/
def turnAmountAt (pts : List Vec3) (p : ℝ) : ℝ :=
  Real.arccos (min (max (dotV (forwardDirAt pts p) (horizontalFutureAt pts p)) (-1)) 1)

/-- turnDirection = sign(dot(right, futureDirection)). -/
def turnDirectionAt (pts : List Vec3) (p : ℝ) : ℝ :=
  jsSign (dotV (rightAt pts p) (futureDirAt pts p))

/-- targetBankAngle = -turnDirection * turnAmount * MAX_BANK_ANGLE * 5. -/
def targetBankAt (pts : List Vec3) (p : ℝ) : ℝ :=
  -turnDirectionAt pts p * turnAmountAt pts p * MAX_BANK_ANGLE * bankGain

/-- elevationChange = nextPoint.y - curPoint.y. -/
def elevationChangeAt (pts : List Vec3) (p : ℝ) : ℝ :=
  (nextPointAt pts p).y - (curPointAt pts p).y

/-- targetPitchAngle = max(min(elevationChange * ELEVATION_INFLUENCE,
MAX_PITCH_ANGLE), -MAX_PITCH_ANGLE). -/
def targetPitchAt (pts : List Vec3) (p : ℝ) : ℝ :=
  max (min (elevationChangeAt pts p * ELEVATION_INFLUENCE) MAX_PITCH_ANGLE)
    (-MAX_PITCH_ANGLE)

/-- baseRotation = setFromRotationMatrix(lookAt(0, forwardDirection, worldUp)). -/
def baseRotationAt (pts : List Vec3) (p : ℝ) : Quat :=
  quatFromBasis (lookAtBasis vzero (forwardDirAt pts p) worldUp)

-- Frame-layer quantities that also read the persistent state.

/-- directionChange = forwardDirection - lastDirection (lastDirection is
read before it is overwritten by the frame). -/
def directionChange1 (pts : List Vec3) (s : FlightState) (inp : FrameInput) : Vec3 :=
  vsub (forwardDirAt pts (smoothScroll1 s inp)) s.lastDirection

/-- targetYawAngle = length(horizontalDirectionChange) *
sign(directionChange.x) * 0.5. -/
def targetYaw1 (pts : List Vec3) (s : FlightState) (inp : FrameInput) : ℝ :=
  lengthV ⟨(directionChange1 pts s inp).x, 0, (directionChange1 pts s inp).z⟩ *
    jsSign (directionChange1 pts s inp).x * 0.5

/-- Updated bank angle: lerp(bankAngle, targetBankAngle, BANK_LERP). -/
def bankAngle1 (pts : List Vec3) (s : FlightState) (inp : FrameInput) : ℝ :=
  mlerp s.bankAngle (targetBankAt pts (smoothScroll1 s inp)) BANK_LERP

/-- Updated pitch angle: lerp(pitchAngle, targetPitchAngle, PITCH_LERP). -/
def pitchAngle1 (pts : List Vec3) (s : FlightState) (inp : FrameInput) : ℝ :=
  mlerp s.pitchAngle (targetPitchAt pts (smoothScroll1 s inp)) PITCH_LERP

/-- Updated yaw angle: lerp(yawAngle, targetYawAngle, YAW_LERP). -/
def yawAngle1 (pts : List Vec3) (s : FlightState) (inp : FrameInput) : ℝ :=
  mlerp s.yawAngle (targetYaw1 pts s inp) YAW_LERP

/-- bankRotation = setFromAxisAngle(forwardDirection, bankAngle). -/
def bankRotation1 (pts : List Vec3) (s : FlightState) (inp : FrameInput) : Quat :=
  qFromAxisAngle (forwardDirAt pts (smoothScroll1 s inp)) (bankAngle1 pts s inp)

/-- pitchRotation = setFromAxisAngle(right, pitchAngle). -/
def pitchRotation1 (pts : List Vec3) (s : FlightState) (inp : FrameInput) : Quat :=
  qFromAxisAngle (rightAt pts (smoothScroll1 s inp)) (pitchAngle1 pts s inp)

/-- yawRotation = setFromAxisAngle(worldUp, yawAngle): built by the frame
loop but never multiplied into the final composition. -/
def yawRotation1 (pts : List Vec3) (s : FlightState) (inp : FrameInput) : Quat :=
  qFromAxisAngle worldUp (yawAngle1 pts s inp)

/-- targetRotation = baseRotation.clone().multiply(bankRotation)
.multiply(pitchRotation). -/
def targetRotation1 (pts : List Vec3) (s : FlightState) (inp : FrameInput) : Quat :=
  qMul (qMul (baseRotationAt pts (smoothScroll1 s inp)) (bankRotation1 pts s inp))
    (pitchRotation1 pts s inp)

/-- Updated stored rotation: currentRotation.slerp(targetRotation,
ROTATION_LERP). -/
def currentRotation1 (pts : List Vec3) (s : FlightState) (inp : FrameInput) : Quat :=
  qSlerp s.currentRotation (targetRotation1 pts s inp) ROTATION_LERP

/-- targetCameraPos = currentPosition + cameraOffset.applyQuaternion
(currentRotation). -/
def targetCameraPos1 (pts : List Vec3) (s : FlightState) (inp : FrameInput) : Vec3 :=
  vadd (samplePosAt pts (smoothScroll1 s inp))
    (applyQuaternionV cameraOffset0 (currentRotation1 pts s inp))

/-- One invocation of the useFrame callback, as a function from the
previous persistent state and the frame input to the next state. -/
def frameStep (pts : List Vec3) (s : FlightState) (inp : FrameInput) : FlightState :=
  { frameCount := s.frameCount + 1
    smoothScroll := smoothScroll1 s inp
    bankAngle := bankAngle1 pts s inp
    pitchAngle := pitchAngle1 pts s inp
    yawAngle := yawAngle1 pts s inp
    lastDirection := forwardDirAt pts (smoothScroll1 s inp)
    currentRotation := currentRotation1 pts s inp
    planePos := lerpV s.planePos (samplePosAt pts (smoothScroll1 s inp)) POSITION_LERP
    lastPosition := lerpV s.lastPosition (targetCameraPos1 pts s inp)
      (inp.delta * MOVEMENT_SMOOTHING)
    lastLookAt := lerpV s.lastLookAt (samplePosAt pts (smoothScroll1 s inp))
      (inp.delta * MOVEMENT_SMOOTHING) }

/-- A sequence of frames. -/
def runFrames (pts : List Vec3) (inps : List FrameInput) (s : FlightState) : FlightState :=
  inps.foldl (fun st i => frameStep pts st i) s

-- The chordal Catmull-Rom curve (THREE.CatmullRomCurve3, closed = false,
-- curveType = "chordal"; the tension parameter is unused for this type).

/-- CubicPoly.initNonuniformCatmullRom followed by CubicPoly.calc w. -/
def cubicCalc (x0 x1 x2 x3 dt0 dt1 dt2 w : ℝ) : ℝ :=
  let t1 := ((x1 - x0) / dt0 - (x2 - x0) / (dt0 + dt1) + (x2 - x1) / dt1) * dt1
  let t2 := ((x2 - x1) / dt1 - (x3 - x1) / (dt1 + dt2) + (x3 - x2) / dt2) * dt1
  x1 + t1 * w + (-3 * x1 + 3 * x2 - 2 * t1 - t2) * w ^ 2 +
    (2 * x1 - 2 * x2 + t1 + t2) * w ^ 3

/-- Vector3.distanceToSquared. -/
def distSqV (a b : Vec3) : ℝ := lengthSqV (vsub a b)

/-- Core of CatmullRomCurve3.getPoint for a chordal curve once the four
control points are selected: the chordal parameters (Math.pow(d, 0.5) of
the squared distances) with their small-distance guards, and the three
coordinate cubics. -/
def catmullSpan (P0 P1 P2 P3 : Vec3) (w : ℝ) : Vec3 :=
  let dt0a := Real.sqrt (distSqV P0 P1)
  let dt1a := Real.sqrt (distSqV P1 P2)
  let dt2a := Real.sqrt (distSqV P2 P3)
  let dt1 := if dt1a < 0.0001 then 1 else dt1a
  let dt0 := if dt0a < 0.0001 then dt1 else dt0a
  let dt2 := if dt2a < 0.0001 then dt1 else dt2a
  ⟨cubicCalc P0.x P1.x P2.x P3.x dt0 dt1 dt2 w,
   cubicCalc P0.y P1.y P2.y P3.y dt0 dt1 dt2 w,
   cubicCalc P0.z P1.z P2.z P3.z dt0 dt1 dt2 w⟩

/-- Control point selection of getPoint: points intPoint - 1 .. intPoint
+ 2, with the reflected boundary points at the ends of a non-closed
curve. -/
def catmullSegment (pts : List Vec3) (ip : ℤ) (w : ℝ) : Vec3 :=
  let l : ℤ := pts.length
  catmullSpan
    (if 0 < ip then getPt pts ((ip - 1) % l)
      else vadd (vsub (getPt pts 0) (getPt pts 1)) (getPt pts 0))
    (getPt pts (ip % l))
    (getPt pts ((ip + 1) % l))
    (if ip + 2 < l then getPt pts ((ip + 2) % l)
      else vadd (vsub (getPt pts (l - 1)) (getPt pts (l - 2))) (getPt pts (l - 1)))
    w

/-- CatmullRomCurve3.getPoint t for a non-closed chordal curve:
p = (length - 1) * t, intPoint = floor(p), weight = p - intPoint, with
the reset intPoint = length - 2, weight = 1 when weight is 0 at the last
point, then the segment body. -/
def catmullGetPoint (pts : List Vec3) (t : ℝ) : Vec3 :=
  let p : ℝ := ((pts.length : ℝ) - 1) * t
  let ip0 : ℤ := ⌊p⌋
  let w0 : ℝ := p - (ip0 : ℝ)
  if w0 = 0 ∧ ip0 = (pts.length : ℤ) - 1 then
    catmullSegment pts ((pts.length : ℤ) - 2) 1
  else catmullSegment pts ip0 w0

/-- Curve.getPoints divisions: the divisions + 1 points at t = d / divisions. -/
def catmullGetPoints (pts : List Vec3) (n : ℕ) : List Vec3 :=
  (List.range (n + 1)).map (fun d : ℕ => catmullGetPoint pts ((d : ℝ) / (n : ℝ)))

-- Concrete data used to evaluate the frame step on explicit inputs.

/-- A sample list of six points: the segment from the origin toward -z,
followed (at the LOOK_AHEAD index 5) by a point on the +x axis, giving a
quarter turn to the right. -/
def pts0 : List Vec3 := [⟨0, 0, 0⟩, ⟨0, 0, -1⟩, vzero, vzero, vzero, ⟨1, 0, 0⟩]

/-- Initial ref state of the Experience component: zero scroll and
angles, lastDirection (0,0,-1), identity rotation, zero vectors. -/
def s0 : FlightState :=
  { frameCount := 0
    smoothScroll := 0
    bankAngle := 0
    pitchAngle := 0
    yawAngle := 0
    lastDirection := ⟨0, 0, -1⟩
    currentRotation := qIdentity
    planePos := vzero
    lastPosition := vzero
    lastLookAt := vzero }

/-- A frame input holding the scroll at 0 with a one-second delta. -/
def inp0 : FrameInput := ⟨0, 1⟩

/-- First control point of the two-point test curve. -/
def ctrlA : Vec3 := ⟨0, 0, 0⟩

/-- Second control point of the two-point test curve. -/
def ctrlB : Vec3 := ⟨0, 0, -20⟩

/-- The three precomputed samples of the chordal Catmull-Rom curve through
ctrlA and ctrlB (getPoints 2). -/
def samples3 : List Vec3 := catmullGetPoints [ctrlA, ctrlB] 2

/-- A degenerate two-point sample list whose adjacent samples coincide at
the origin, so the forward direction of the frame collapses to the zero
vector. -/
def ptsD : List Vec3 := [vzero, vzero]

/-- A ref state with the identity orientation and the stored bank angle
at 100 * pi / 99, so that one BANK_LERP step toward a zero target lands
the bank exactly on pi. -/
def sD : FlightState :=
  { frameCount := 0
    smoothScroll := 0
    bankAngle := 100 * Real.pi / 99
    pitchAngle := 0
    yawAngle := 0
    lastDirection := ⟨0, 0, -1⟩
    currentRotation := qIdentity
    planePos := vzero
    lastPosition := vzero
    lastLookAt := vzero }

-- Basic facts about the vector helpers.

/-- The squared length is a sum of squares. -/
theorem lengthSqV_nonneg (v : Vec3) : 0 ≤ lengthSqV v := by
  simp only [lengthSqV]
  nlinarith [mul_self_nonneg v.x, mul_self_nonneg v.y, mul_self_nonneg v.z]

/-- A nonzero vector has positive squared length. -/
theorem lengthSqV_pos (v : Vec3) (hv : v ≠ vzero) : 0 < lengthSqV v := by
  rcases lt_or_eq_of_le (lengthSqV_nonneg v) with h | h
  · exact h
  · exfalso
    apply hv
    have h2 : v.x * v.x + v.y * v.y + v.z * v.z = 0 := by
      simpa [lengthSqV] using h.symm
    have hx : v.x = 0 := mul_self_eq_zero.mp (le_antisymm
      (by nlinarith [mul_self_nonneg v.y, mul_self_nonneg v.z]) (mul_self_nonneg v.x))
    have hy : v.y = 0 := mul_self_eq_zero.mp (le_antisymm
      (by nlinarith [mul_self_nonneg v.x, mul_self_nonneg v.z]) (mul_self_nonneg v.y))
    have hz : v.z = 0 := mul_self_eq_zero.mp (le_antisymm
      (by nlinarith [mul_self_nonneg v.x, mul_self_nonneg v.y]) (mul_self_nonneg v.z))
    ext <;> simp [vzero, hx, hy, hz]

/-- A nonzero vector has positive length. -/
theorem lengthV_pos (v : Vec3) (hv : v ≠ vzero) : 0 < lengthV v :=
  Real.sqrt_pos.mpr (lengthSqV_pos v hv)

/-- Squared length of a scalar multiple. -/
theorem lengthSqV_vscale (c : ℝ) (v : Vec3) :
    lengthSqV (vscale c v) = c ^ 2 * lengthSqV v := by
  simp only [lengthSqV, vscale]; ring

/-- Length of a scalar multiple. -/
theorem lengthV_vscale (c : ℝ) (v : Vec3) :
    lengthV (vscale c v) = |c| * lengthV v := by
  simp only [lengthV, lengthSqV_vscale]
  rw [Real.sqrt_mul (sq_nonneg c), Real.sqrt_sq_eq_abs]

/-- Normalizing a nonzero vector yields a unit vector. -/
theorem lengthSqV_normalizeV (v : Vec3) (hv : v ≠ vzero) :
    lengthSqV (normalizeV v) = 1 := by
  have hpos := lengthSqV_pos v hv
  have hl : lengthV v ≠ 0 := ne_of_gt (lengthV_pos v hv)
  simp only [normalizeV, if_neg hl, lengthSqV_vscale]
  have hsq : lengthV v ^ 2 = lengthSqV v := Real.sq_sqrt (le_of_lt hpos)
  field_simp
  rw [hsq]

/-- The normalized vector is always a scalar multiple of the input. -/
theorem normalizeV_eq_vscale (v : Vec3) : ∃ c : ℝ, normalizeV v = vscale c v := by
  by_cases h : lengthV v = 0
  · exact ⟨1, by simp [normalizeV, h, vscale, Vec3.ext_iff]⟩
  · exact ⟨1 / lengthV v, by simp [normalizeV, h]⟩

/-- A cross product is orthogonal to its second factor. -/
theorem dotV_crossV_right (a b : Vec3) : dotV (crossV a b) b = 0 := by
  simp only [dotV, crossV]; ring

/-- Dot product of a scaled vector. -/
theorem dotV_vscale_left (c : ℝ) (a b : Vec3) :
    dotV (vscale c a) b = c * dotV a b := by
  simp only [dotV, vscale]; ring

/-- Difference between a lerp and its endpoint. -/
theorem vsub_lerpV (a b : Vec3) (t : ℝ) :
    vsub (lerpV a b t) b = vscale (1 - t) (vsub a b) := by
  simp only [lerpV, vsub, vscale, Vec3.mk.injEq]
  refine ⟨by ring, by ring, by ring⟩

-- C9: all sample lookups stay in bounds.

/-- C9: for every animated progress value in [0,1] and every sample array
of length at least 2, curPointIndex = min(floor(p * (L-1)), L-2) lies in
[0, L-2], the next index min(curPointIndex + 1, L-1) and the look-ahead
index min(curPointIndex + LOOK_AHEAD, L-1) lie in [0, L-1], and curPoint
and nextPoint are distinct entries. -/
theorem C9_lookup_indices_in_bounds (pts : List Vec3) (p : ℝ)
    (hL : 2 ≤ pts.length) (h0 : 0 ≤ p) (h1 : p ≤ 1) :
    0 ≤ curPointIndexAt pts p ∧ curPointIndexAt pts p ≤ (pts.length : ℤ) - 2 ∧
    0 ≤ nextPointIndexAt pts p ∧ nextPointIndexAt pts p ≤ (pts.length : ℤ) - 1 ∧
    0 ≤ futurePointIndexAt pts p ∧ futurePointIndexAt pts p ≤ (pts.length : ℤ) - 1 ∧
    curPointIndexAt pts p ≠ nextPointIndexAt pts p := by
  have hL2 : (2 : ℤ) ≤ (pts.length : ℤ) := by exact_mod_cast hL
  have hLr : (2 : ℝ) ≤ (pts.length : ℝ) := by exact_mod_cast hL
  have hfl : 0 ≤ ⌊p * ((pts.length : ℝ) - 1)⌋ := by
    apply Int.floor_nonneg.mpr
    apply mul_nonneg h0
    linarith
  simp only [curPointIndexAt, nextPointIndexAt, futurePointIndexAt, LOOK_AHEAD]
  omega

/-- Witness for C9 at the concrete sample list pts0 and progress 0. -/
theorem C9_lookup_indices_in_bounds_witness :
    0 ≤ curPointIndexAt pts0 0 ∧ curPointIndexAt pts0 0 ≤ (pts0.length : ℤ) - 2 ∧
    0 ≤ nextPointIndexAt pts0 0 ∧ nextPointIndexAt pts0 0 ≤ (pts0.length : ℤ) - 1 ∧
    0 ≤ futurePointIndexAt pts0 0 ∧ futurePointIndexAt pts0 0 ≤ (pts0.length : ℤ) - 1 ∧
    curPointIndexAt pts0 0 ≠ nextPointIndexAt pts0 0 :=
  C9_lookup_indices_in_bounds pts0 0 (by norm_num [pts0]) le_rfl zero_le_one

-- C4: the progress smoother is an unclamped lerp.

/-- C4 counterexample: with animated progress 0, raw progress 1 (both in
[0,1]) and the non-negative delta 2, one advance produces 2, which is
outside [0,1]; so the advance does not clamp and the animated progress
can leave [0,1]. -/
theorem C4_counterexample :
    (frameStep pts0 s0 ⟨1, 2⟩).smoothScroll = 2 ∧
    ¬((frameStep pts0 s0 ⟨1, 2⟩).smoothScroll ≤ 1) := by
  have h : (frameStep pts0 s0 ⟨1, 2⟩).smoothScroll = 2 := by
    show smoothScroll1 s0 ⟨1, 2⟩ = 2
    simp [smoothScroll1, mlerp, s0, SCROLL_SMOOTHING]
  exact ⟨h, by rw [h]; norm_num⟩

/-- C4 (amended): one advance of the progress smoother computes
lerp(animated, raw, delta * SCROLL_SMOOTHING) with no clamp; whenever the
lerp factor delta * SCROLL_SMOOTHING lies in [0,1] and both the raw and
the animated progress lie in [0,1], the result stays in [0,1]. -/
theorem C4_progress_smoother_amended (pts : List Vec3) (s : FlightState)
    (inp : FrameInput)
    (h0 : 0 ≤ s.smoothScroll) (h1 : s.smoothScroll ≤ 1)
    (ho0 : 0 ≤ inp.offset) (ho1 : inp.offset ≤ 1)
    (hd0 : 0 ≤ inp.delta * SCROLL_SMOOTHING) (hd1 : inp.delta * SCROLL_SMOOTHING ≤ 1) :
    (frameStep pts s inp).smoothScroll
      = mlerp s.smoothScroll inp.offset (inp.delta * SCROLL_SMOOTHING) ∧
    0 ≤ (frameStep pts s inp).smoothScroll ∧
    (frameStep pts s inp).smoothScroll ≤ 1 := by
  have h : (frameStep pts s inp).smoothScroll
      = (1 - inp.delta * SCROLL_SMOOTHING) * s.smoothScroll
        + (inp.delta * SCROLL_SMOOTHING) * inp.offset := rfl
  refine ⟨rfl, ?_, ?_⟩ <;> rw [h] <;> nlinarith

/-- Witness for C4 at animated progress 0, raw progress 1, delta 1/2. -/
theorem C4_progress_smoother_amended_witness :
    (frameStep pts0 s0 ⟨1, 1/2⟩).smoothScroll
      = mlerp s0.smoothScroll (1 : ℝ) ((1/2 : ℝ) * SCROLL_SMOOTHING) ∧
    0 ≤ (frameStep pts0 s0 ⟨1, 1/2⟩).smoothScroll ∧
    (frameStep pts0 s0 ⟨1, 1/2⟩).smoothScroll ≤ 1 :=
  C4_progress_smoother_amended pts0 s0 ⟨1, 1/2⟩ (by norm_num [s0]) (by norm_num [s0])
    (by norm_num) (by norm_num) (by norm_num [SCROLL_SMOOTHING])
    (by norm_num [SCROLL_SMOOTHING])

-- C7: a zero-delta frame.

/-- C7: on a frame with delta exactly 0 the animated progress is
unchanged, while bank, pitch and yaw still advance toward their targets
by their constant configured lerp factors (each difference to the target
shrinks by the constant factor 1 - lerp, independent of delta). -/
theorem C7_zero_delta_frame (pts : List Vec3) (s : FlightState) (inp : FrameInput)
    (hd : inp.delta = 0) :
    (frameStep pts s inp).smoothScroll = s.smoothScroll ∧
    (frameStep pts s inp).bankAngle
      = mlerp s.bankAngle (targetBankAt pts s.smoothScroll) BANK_LERP ∧
    (frameStep pts s inp).pitchAngle
      = mlerp s.pitchAngle (targetPitchAt pts s.smoothScroll) PITCH_LERP ∧
    (frameStep pts s inp).yawAngle
      = mlerp s.yawAngle (targetYaw1 pts s inp) YAW_LERP ∧
    (frameStep pts s inp).bankAngle - targetBankAt pts s.smoothScroll
      = (1 - BANK_LERP) * (s.bankAngle - targetBankAt pts s.smoothScroll) ∧
    (frameStep pts s inp).pitchAngle - targetPitchAt pts s.smoothScroll
      = (1 - PITCH_LERP) * (s.pitchAngle - targetPitchAt pts s.smoothScroll) ∧
    (frameStep pts s inp).yawAngle - targetYaw1 pts s inp
      = (1 - YAW_LERP) * (s.yawAngle - targetYaw1 pts s inp) := by
  have hs : smoothScroll1 s inp = s.smoothScroll := by
    simp [smoothScroll1, mlerp, hd]
  refine ⟨?_, ?_, ?_, ?_, ?_, ?_, ?_⟩
  · show smoothScroll1 s inp = s.smoothScroll; exact hs
  · show bankAngle1 pts s inp = _; rw [bankAngle1, hs]
  · show pitchAngle1 pts s inp = _; rw [pitchAngle1, hs]
  · show yawAngle1 pts s inp = _; rw [yawAngle1]
  · show bankAngle1 pts s inp - _ = _; rw [bankAngle1, hs, mlerp]; ring
  · show pitchAngle1 pts s inp - _ = _; rw [pitchAngle1, hs, mlerp]; ring
  · show yawAngle1 pts s inp - _ = _; rw [yawAngle1, mlerp]; ring

/-- Witness for C7 at the concrete state s0 with a zero-delta input. -/
theorem C7_zero_delta_frame_witness :
    (frameStep pts0 s0 ⟨0, 0⟩).smoothScroll = s0.smoothScroll ∧
    (frameStep pts0 s0 ⟨0, 0⟩).bankAngle
      = mlerp s0.bankAngle (targetBankAt pts0 s0.smoothScroll) BANK_LERP ∧
    (frameStep pts0 s0 ⟨0, 0⟩).pitchAngle
      = mlerp s0.pitchAngle (targetPitchAt pts0 s0.smoothScroll) PITCH_LERP ∧
    (frameStep pts0 s0 ⟨0, 0⟩).yawAngle
      = mlerp s0.yawAngle (targetYaw1 pts0 s0 ⟨0, 0⟩) YAW_LERP ∧
    (frameStep pts0 s0 ⟨0, 0⟩).bankAngle - targetBankAt pts0 s0.smoothScroll
      = (1 - BANK_LERP) * (s0.bankAngle - targetBankAt pts0 s0.smoothScroll) ∧
    (frameStep pts0 s0 ⟨0, 0⟩).pitchAngle - targetPitchAt pts0 s0.smoothScroll
      = (1 - PITCH_LERP) * (s0.pitchAngle - targetPitchAt pts0 s0.smoothScroll) ∧
    (frameStep pts0 s0 ⟨0, 0⟩).yawAngle - targetYaw1 pts0 s0 ⟨0, 0⟩
      = (1 - YAW_LERP) * (s0.yawAngle - targetYaw1 pts0 s0 ⟨0, 0⟩) :=
  C7_zero_delta_frame pts0 s0 ⟨0, 0⟩ rfl

-- C8: convergence under a held raw progress.

/-- C8 counterexample: raw progress held at 1 with the non-zero delta 3;
after one frame the distance from the animated progress to the raw
progress grows from 1 to 2, so the convergence is not monotonic for
arbitrary non-zero deltas. -/
theorem C8_counterexample :
    (frameStep pts0 s0 ⟨1, 3⟩).smoothScroll = 3 ∧
    |(frameStep pts0 s0 ⟨1, 3⟩).smoothScroll - 1| > |s0.smoothScroll - 1| := by
  have h : (frameStep pts0 s0 ⟨1, 3⟩).smoothScroll = 3 := by
    show smoothScroll1 s0 ⟨1, 3⟩ = 3
    simp [smoothScroll1, mlerp, s0, SCROLL_SMOOTHING]
  refine ⟨h, ?_⟩
  rw [h]
  have hs : s0.smoothScroll = 0 := rfl
  rw [hs]
  norm_num

/-- C8 (amended): when the lerp factor delta * SCROLL_SMOOTHING is in
[0,2], the distance from the animated progress to the raw progress is
non-increasing; each frame the stored position's distance to the current
interpolated curve sample shrinks by the exact factor 1 - POSITION_LERP;
and once the animated progress equals the raw progress it stays there and
the position's distance to the sample for that progress is
non-increasing. -/
theorem C8_convergence_amended (pts : List Vec3) (s : FlightState) (inp : FrameInput)
    (hd0 : 0 ≤ inp.delta * SCROLL_SMOOTHING) (hd2 : inp.delta * SCROLL_SMOOTHING ≤ 2) :
    |(frameStep pts s inp).smoothScroll - inp.offset| ≤ |s.smoothScroll - inp.offset| ∧
    lengthV (vsub (frameStep pts s inp).planePos (samplePosAt pts (smoothScroll1 s inp)))
      = (1 - POSITION_LERP)
        * lengthV (vsub s.planePos (samplePosAt pts (smoothScroll1 s inp))) ∧
    (s.smoothScroll = inp.offset →
      (frameStep pts s inp).smoothScroll = inp.offset ∧
      lengthV (vsub (frameStep pts s inp).planePos (samplePosAt pts inp.offset))
        ≤ lengthV (vsub s.planePos (samplePosAt pts inp.offset))) := by
  have hm : smoothScroll1 s inp - inp.offset
      = (1 - inp.delta * SCROLL_SMOOTHING) * (s.smoothScroll - inp.offset) := by
    rw [smoothScroll1, mlerp]; ring
  have habs : |(frameStep pts s inp).smoothScroll - inp.offset|
      ≤ |s.smoothScroll - inp.offset| := by
    show |smoothScroll1 s inp - inp.offset| ≤ _
    rw [hm, abs_mul]
    have h1 : |1 - inp.delta * SCROLL_SMOOTHING| ≤ 1 := by
      rw [abs_le]; constructor <;> linarith
    calc |1 - inp.delta * SCROLL_SMOOTHING| * |s.smoothScroll - inp.offset|
        ≤ 1 * |s.smoothScroll - inp.offset| :=
          mul_le_mul_of_nonneg_right h1 (abs_nonneg _)
      _ = |s.smoothScroll - inp.offset| := one_mul _
  have hpos : ∀ q : ℝ, lengthV (vsub (lerpV s.planePos (samplePosAt pts q) POSITION_LERP)
      (samplePosAt pts q))
      = (1 - POSITION_LERP) * lengthV (vsub s.planePos (samplePosAt pts q)) := by
    intro q
    rw [vsub_lerpV, lengthV_vscale]
    norm_num [POSITION_LERP]
  refine ⟨habs, hpos _, fun hfix => ?_⟩
  have hs1 : smoothScroll1 s inp = inp.offset := by
    rw [smoothScroll1, hfix, mlerp]; ring
  refine ⟨hs1, ?_⟩
  have h2 : (frameStep pts s inp).planePos
      = lerpV s.planePos (samplePosAt pts (smoothScroll1 s inp)) POSITION_LERP := rfl
  rw [h2, hs1, hpos inp.offset]
  have hnn : 0 ≤ lengthV (vsub s.planePos (samplePosAt pts inp.offset)) :=
    Real.sqrt_nonneg _
  rw [show POSITION_LERP = (0.1 : ℝ) from rfl]
  nlinarith [hnn]

/-- Witness for C8 at the state s0 with raw progress 0 and delta 1/2. -/
theorem C8_convergence_amended_witness :
    |(frameStep pts0 s0 ⟨0, 1/2⟩).smoothScroll - (0:ℝ)| ≤ |s0.smoothScroll - (0:ℝ)| ∧
    lengthV (vsub (frameStep pts0 s0 ⟨0, 1/2⟩).planePos
        (samplePosAt pts0 (smoothScroll1 s0 ⟨0, 1/2⟩)))
      = (1 - POSITION_LERP)
        * lengthV (vsub s0.planePos (samplePosAt pts0 (smoothScroll1 s0 ⟨0, 1/2⟩))) ∧
    (s0.smoothScroll = (0:ℝ) →
      (frameStep pts0 s0 ⟨0, 1/2⟩).smoothScroll = (0:ℝ) ∧
      lengthV (vsub (frameStep pts0 s0 ⟨0, 1/2⟩).planePos (samplePosAt pts0 0))
        ≤ lengthV (vsub s0.planePos (samplePosAt pts0 0))) :=
  C8_convergence_amended pts0 s0 ⟨0, 1/2⟩ (by norm_num [SCROLL_SMOOTHING])
    (by norm_num [SCROLL_SMOOTHING])

-- Range facts for the angle computations.

/-- Math.sign always lies in [-1, 1]. -/
theorem jsSign_abs_le (x : ℝ) : |jsSign x| ≤ 1 := by
  rw [jsSign]
  split_ifs <;> norm_num

/-- A lerp of two values bounded by B in absolute value, with factor in
[0,1], is bounded by B. -/
theorem mlerp_abs_le (a b t B : ℝ) (ha : |a| ≤ B) (hb : |b| ≤ B)
    (ht0 : 0 ≤ t) (ht1 : t ≤ 1) : |mlerp a b t| ≤ B := by
  rw [mlerp]
  calc |(1 - t) * a + t * b| ≤ |(1 - t) * a| + |t * b| := abs_add _ _
    _ = (1 - t) * |a| + t * |b| := by
        rw [abs_mul, abs_mul, abs_of_nonneg (by linarith : (0:ℝ) ≤ 1 - t),
          abs_of_nonneg ht0]
    _ ≤ (1 - t) * B + t * B := by
        exact add_le_add (mul_le_mul_of_nonneg_left ha (by linarith))
          (mul_le_mul_of_nonneg_left hb ht0)
    _ = B := by ring

/-- The target bank angle is bounded by pi * MAX_BANK_ANGLE * 5, since
the arccos of a clamped dot product lies in [0, pi] and the sign factor
lies in [-1, 1]. -/
theorem targetBank_abs_le (pts : List Vec3) (p : ℝ) :
    |targetBankAt pts p| ≤ Real.pi * MAX_BANK_ANGLE * 5 := by
  have hd := jsSign_abs_le (dotV (rightAt pts p) (futureDirAt pts p))
  have hd0 : 0 ≤ |turnDirectionAt pts p| := abs_nonneg _
  have ha0 : 0 ≤ turnAmountAt pts p := Real.arccos_nonneg _
  have ha : turnAmountAt pts p ≤ Real.pi := Real.arccos_le_pi _
  have hd1 : |turnDirectionAt pts p| ≤ 1 := hd
  rw [targetBankAt, abs_mul, abs_mul, abs_mul, abs_neg]
  rw [abs_of_nonneg ha0,
    show |MAX_BANK_ANGLE| = MAX_BANK_ANGLE by rw [MAX_BANK_ANGLE]; norm_num,
    show |bankGain| = (5:ℝ) by rw [bankGain]; norm_num,
    show MAX_BANK_ANGLE = (0.8:ℝ) from rfl]
  nlinarith [mul_le_mul hd1 ha ha0 zero_le_one]

/-- The clamped pitch target is bounded by MAX_PITCH_ANGLE. -/
theorem targetPitch_abs_le (pts : List Vec3) (p : ℝ) :
    |targetPitchAt pts p| ≤ MAX_PITCH_ANGLE := by
  rw [targetPitchAt, abs_le]
  constructor
  · exact le_max_right _ _
  · apply max_le (min_le_right _ _)
    rw [MAX_PITCH_ANGLE]; norm_num

-- Evaluation of the frame geometry on the concrete sample list pts0 with
-- the scroll held at 0: the heading is (0,0,-1) and the look-ahead point
-- lies a quarter turn to the right, so the target bank angle is -2 pi.

/-- Resolved in-range lookup. -/
theorem getPt_eval (pts : List Vec3) (i : ℤ) (hi : 0 ≤ i)
    (h : i.toNat < pts.length) : getPt pts i = pts.get ⟨i.toNat, h⟩ := by
  rw [getPt, dif_pos ⟨hi, by omega⟩]

/-- A vector of unit squared length is fixed by normalize. -/
theorem normalizeV_of_lengthSq_one (v : Vec3) (h : lengthSqV v = 1) :
    normalizeV v = v := by
  have hl : lengthV v = 1 := by rw [lengthV, h, Real.sqrt_one]
  rw [normalizeV, if_neg (by rw [hl]; norm_num), hl]
  simp [vscale, Vec3.ext_iff]

/-- Holding the scroll at zero keeps the smoothed scroll at zero. -/
theorem smoothScroll1_inp0 (s : FlightState) (hs : s.smoothScroll = 0) :
    smoothScroll1 s inp0 = 0 := by
  simp [smoothScroll1, hs, mlerp, inp0]

/-- Current index at progress 0 on pts0. -/
theorem curIdx_pts0 : curPointIndexAt pts0 0 = 0 := by
  norm_num [curPointIndexAt, pts0]

/-- Next index at progress 0 on pts0. -/
theorem nextIdx_pts0 : nextPointIndexAt pts0 0 = 1 := by
  rw [nextPointIndexAt, curIdx_pts0]
  norm_num [pts0]

/-- Future index at progress 0 on pts0. -/
theorem futureIdx_pts0 : futurePointIndexAt pts0 0 = 5 := by
  rw [futurePointIndexAt, curIdx_pts0]
  norm_num [pts0, LOOK_AHEAD]

/-- curPoint at progress 0 on pts0. -/
theorem curPoint_pts0 : curPointAt pts0 0 = ⟨0, 0, 0⟩ := by
  rw [curPointAt, curIdx_pts0, getPt_eval pts0 0 (by norm_num) (by norm_num [pts0])]
  rfl

/-- nextPoint at progress 0 on pts0. -/
theorem nextPoint_pts0 : nextPointAt pts0 0 = ⟨0, 0, -1⟩ := by
  rw [nextPointAt, nextIdx_pts0, getPt_eval pts0 1 (by norm_num) (by norm_num [pts0])]
  rfl

/-- futurePoint at progress 0 on pts0. -/
theorem futurePoint_pts0 : futurePointAt pts0 0 = ⟨1, 0, 0⟩ := by
  rw [futurePointAt, futureIdx_pts0, getPt_eval pts0 5 (by norm_num) (by norm_num [pts0])]
  rfl

/-- interpolationFactor at progress 0 on pts0. -/
theorem interp_pts0 : interpFactorAt pts0 0 = 0 := by
  norm_num [interpFactorAt, jsfmod1, jstrunc, pts0]

/-- currentPosition at progress 0 on pts0. -/
theorem samplePos_pts0 : samplePosAt pts0 0 = ⟨0, 0, 0⟩ := by
  rw [samplePosAt, curPoint_pts0, nextPoint_pts0, interp_pts0]
  simp [lerpV]

/-- forwardDirection at progress 0 on pts0. -/
theorem forwardDir_pts0 : forwardDirAt pts0 0 = ⟨0, 0, -1⟩ := by
  rw [forwardDirAt, curPoint_pts0, nextPoint_pts0]
  rw [show vsub ⟨0, 0, -1⟩ ⟨0, 0, 0⟩ = (⟨0, 0, -1⟩ : Vec3) by simp [vsub]]
  exact normalizeV_of_lengthSq_one _ (by norm_num [lengthSqV])

/-- futureDirection at progress 0 on pts0. -/
theorem futureDir_pts0 : futureDirAt pts0 0 = ⟨1, 0, 0⟩ := by
  rw [futureDirAt, futurePoint_pts0, samplePos_pts0]
  rw [show vsub ⟨1, 0, 0⟩ ⟨0, 0, 0⟩ = (⟨1, 0, 0⟩ : Vec3) by simp [vsub]]
  exact normalizeV_of_lengthSq_one _ (by norm_num [lengthSqV])

/-- right vector at progress 0 on pts0. -/
theorem right_pts0 : rightAt pts0 0 = ⟨1, 0, 0⟩ := by
  rw [rightAt, forwardDir_pts0]
  rw [show crossV ⟨0, 0, -1⟩ worldUp = (⟨1, 0, 0⟩ : Vec3) by
    simp [crossV, worldUp]]
  exact normalizeV_of_lengthSq_one _ (by norm_num [lengthSqV])

/-- horizontalFuture at progress 0 on pts0. -/
theorem horizFuture_pts0 : horizontalFutureAt pts0 0 = ⟨1, 0, 0⟩ := by
  rw [horizontalFutureAt, futureDir_pts0]
  exact normalizeV_of_lengthSq_one _ (by norm_num [lengthSqV])

/-- turnAmount at progress 0 on pts0 is a quarter turn. -/
theorem turnAmount_pts0 : turnAmountAt pts0 0 = Real.pi / 2 := by
  rw [turnAmountAt, forwardDir_pts0, horizFuture_pts0]
  rw [show dotV ⟨0, 0, -1⟩ ⟨1, 0, 0⟩ = (0:ℝ) by norm_num [dotV]]
  norm_num [Real.arccos_zero]

/-- turnDirection at progress 0 on pts0 is a right turn. -/
theorem turnDirection_pts0 : turnDirectionAt pts0 0 = 1 := by
  rw [turnDirectionAt, right_pts0, futureDir_pts0]
  rw [show dotV ⟨1, 0, 0⟩ ⟨1, 0, 0⟩ = (1:ℝ) by norm_num [dotV]]
  rw [jsSign, if_pos (by norm_num : (0:ℝ) < 1)]

/-- Target bank angle at progress 0 on pts0: the gain-multiplied value
-1 * (pi/2) * 0.8 * 5 = -2 pi, far beyond MAX_BANK_ANGLE. -/
theorem targetBank_pts0 : targetBankAt pts0 0 = -(2 * Real.pi) := by
  rw [targetBankAt, turnAmount_pts0, turnDirection_pts0,
    show MAX_BANK_ANGLE = (0.8:ℝ) from rfl, show bankGain = (5:ℝ) from rfl]
  ring

-- C2: the target bank formula.

/-- C2: on every frame the target bank angle equals
-sign(dot(right, futureDirection)) * acos(clamp(dot(forward,
horizontalFuture), -1, 1)) * MAX_BANK_ANGLE * bankGain with bankGain = 5,
the dot product being clamped before acos; the stored bank is lerped
toward this target with no hard clamp to MAX_BANK_ANGLE afterwards — in
particular a reachable target (on pts0 at progress 0) exceeds
MAX_BANK_ANGLE in magnitude. -/
theorem C2_target_bank_formula (pts : List Vec3) (s : FlightState) (inp : FrameInput) :
    (targetBankAt pts (smoothScroll1 s inp)
      = -(jsSign (dotV (rightAt pts (smoothScroll1 s inp))
            (futureDirAt pts (smoothScroll1 s inp))))
        * Real.arccos (min (max (dotV (forwardDirAt pts (smoothScroll1 s inp))
            (horizontalFutureAt pts (smoothScroll1 s inp))) (-1)) 1)
        * MAX_BANK_ANGLE * bankGain ∧ bankGain = 5) ∧
    (frameStep pts s inp).bankAngle
      = mlerp s.bankAngle (targetBankAt pts (smoothScroll1 s inp)) BANK_LERP ∧
    MAX_BANK_ANGLE < |targetBankAt pts0 0| := by
  refine ⟨⟨rfl, rfl⟩, rfl, ?_⟩
  rw [targetBank_pts0, abs_neg, abs_of_pos (by positivity : (0:ℝ) < 2 * Real.pi),
    show MAX_BANK_ANGLE = (0.8:ℝ) from rfl]
  nlinarith [Real.pi_gt_three]

-- C10: the gain-multiplied bank bound is an invariant.

/-- One frame preserves the bank bound pi * MAX_BANK_ANGLE * 5. -/
theorem bank_bound_step (pts : List Vec3) (s : FlightState) (inp : FrameInput)
    (h : |s.bankAngle| ≤ Real.pi * MAX_BANK_ANGLE * 5) :
    |(frameStep pts s inp).bankAngle| ≤ Real.pi * MAX_BANK_ANGLE * 5 := by
  show |bankAngle1 pts s inp| ≤ _
  rw [bankAngle1]
  exact mlerp_abs_le _ _ _ _ h (targetBank_abs_le pts _)
    (by rw [BANK_LERP]; norm_num) (by rw [BANK_LERP]; norm_num)

/-- Any number of frames preserve the bank bound. -/
theorem bank_bound_run (pts : List Vec3) (inps : List FrameInput) :
    ∀ s : FlightState, |s.bankAngle| ≤ Real.pi * MAX_BANK_ANGLE * 5 →
      |(runFrames pts inps s).bankAngle| ≤ Real.pi * MAX_BANK_ANGLE * 5 := by
  induction inps with
  | nil => intro s h; simpa [runFrames] using h
  | cons i is ih =>
    intro s h
    have hrw : runFrames pts (i :: is) s = runFrames pts is (frameStep pts s i) := by
      simp [runFrames]
    rw [hrw]
    exact ih _ (bank_bound_step pts s i h)

/-- C10: starting from bank angle 0, after every sequence of frame steps
the stored bank angle satisfies the bound pi * MAX_BANK_ANGLE * 5, every
target bank angle being bounded by that value (the turn amount is an
arccos of a clamped dot product, hence in [0, pi]) and each lerp keeping
the stored angle within the bound. -/
theorem C10_bank_bounded_sequence (pts : List Vec3) (inps : List FrameInput)
    (s : FlightState) (h0 : s.bankAngle = 0) :
    |(runFrames pts inps s).bankAngle| ≤ Real.pi * MAX_BANK_ANGLE * 5 ∧
    ∀ p : ℝ, |targetBankAt pts p| ≤ Real.pi * MAX_BANK_ANGLE * 5 := by
  refine ⟨bank_bound_run pts inps s ?_, fun p => targetBank_abs_le pts p⟩
  rw [h0, abs_zero, show MAX_BANK_ANGLE = (0.8:ℝ) from rfl]
  positivity

/-- Witness for C10: one concrete frame on pts0 from the zero state. -/
theorem C10_bank_bounded_sequence_witness :
    |(runFrames pts0 [inp0] s0).bankAngle| ≤ Real.pi * MAX_BANK_ANGLE * 5 ∧
    ∀ p : ℝ, |targetBankAt pts0 p| ≤ Real.pi * MAX_BANK_ANGLE * 5 :=
  C10_bank_bounded_sequence pts0 [inp0] s0 rfl

-- C5: pitch is clamped to its configured maximum, bank is not.

/-- One frame preserves the pitch bound MAX_PITCH_ANGLE. -/
theorem pitch_bound_step (pts : List Vec3) (s : FlightState) (inp : FrameInput)
    (h : |s.pitchAngle| ≤ MAX_PITCH_ANGLE) :
    |(frameStep pts s inp).pitchAngle| ≤ MAX_PITCH_ANGLE := by
  show |pitchAngle1 pts s inp| ≤ _
  rw [pitchAngle1]
  exact mlerp_abs_le _ _ _ _ h (targetPitch_abs_le pts _)
    (by rw [PITCH_LERP]; norm_num) (by rw [PITCH_LERP]; norm_num)

/-- Any number of frames preserve the pitch bound. -/
theorem pitch_bound_run (pts : List Vec3) (inps : List FrameInput) :
    ∀ s : FlightState, |s.pitchAngle| ≤ MAX_PITCH_ANGLE →
      |(runFrames pts inps s).pitchAngle| ≤ MAX_PITCH_ANGLE := by
  induction inps with
  | nil => intro s h; simpa [runFrames] using h
  | cons i is ih =>
    intro s h
    have hrw : runFrames pts (i :: is) s = runFrames pts is (frameStep pts s i) := by
      simp [runFrames]
    rw [hrw]
    exact ih _ (pitch_bound_step pts s i h)

/-- C5 (amended): the pitch target is clamp(elevationDelta *
ELEVATION_INFLUENCE, -MAX_PITCH_ANGLE, MAX_PITCH_ANGLE) with
elevationDelta = nextPoint.y - curPoint.y, and starting from zero pitch
the stored pitch angle never exceeds MAX_PITCH_ANGLE in magnitude; the
stored bank angle, by contrast, is NOT bounded by MAX_BANK_ANGLE (see the
counterexample), only by the gain-multiplied bound of C10. -/
theorem C5_pitch_bounded_amended (pts : List Vec3) (inps : List FrameInput)
    (s : FlightState) (h0 : s.pitchAngle = 0) :
    |(runFrames pts inps s).pitchAngle| ≤ MAX_PITCH_ANGLE ∧
    ∀ p : ℝ, targetPitchAt pts p
      = max (min (((nextPointAt pts p).y - (curPointAt pts p).y) * ELEVATION_INFLUENCE)
          MAX_PITCH_ANGLE) (-MAX_PITCH_ANGLE) := by
  refine ⟨pitch_bound_run pts inps s ?_, fun p => rfl⟩
  rw [h0, abs_zero, MAX_PITCH_ANGLE]
  norm_num

/-- Witness for C5: one concrete frame on pts0 from the zero state. -/
theorem C5_pitch_bounded_amended_witness :
    |(runFrames pts0 [inp0] s0).pitchAngle| ≤ MAX_PITCH_ANGLE ∧
    ∀ p : ℝ, targetPitchAt pts0 p
      = max (min (((nextPointAt pts0 p).y - (curPointAt pts0 p).y) * ELEVATION_INFLUENCE)
          MAX_PITCH_ANGLE) (-MAX_PITCH_ANGLE) :=
  C5_pitch_bounded_amended pts0 [inp0] s0 rfl

/-- With the scroll held at 0 on pts0, n frames drive the bank angle to
-2 pi + 0.99 ^ n * (bank + 2 pi). -/
theorem bank_iter_pts0 (n : ℕ) : ∀ s : FlightState, s.smoothScroll = 0 →
    (runFrames pts0 (List.replicate n inp0) s).bankAngle
      = -(2 * Real.pi) + (99 / 100 : ℝ) ^ n * (s.bankAngle + 2 * Real.pi) := by
  induction n with
  | zero =>
    intro s hs
    simp only [runFrames, List.replicate_zero, List.foldl_nil, pow_zero, one_mul]
    ring
  | succ n ih =>
    intro s hs
    rw [List.replicate_succ]
    have hrw : runFrames pts0 (inp0 :: List.replicate n inp0) s
        = runFrames pts0 (List.replicate n inp0) (frameStep pts0 s inp0) := by
      simp [runFrames]
    have hsc : (frameStep pts0 s inp0).smoothScroll = 0 := smoothScroll1_inp0 s hs
    rw [hrw, ih _ hsc]
    have hbank : (frameStep pts0 s inp0).bankAngle
        = mlerp s.bankAngle (-(2 * Real.pi)) BANK_LERP := by
      show bankAngle1 pts0 s inp0 = _
      rw [bankAngle1, smoothScroll1_inp0 s hs, targetBank_pts0]
    rw [hbank, mlerp, show BANK_LERP = (0.01:ℝ) from rfl]
    ring

/-- C5 counterexample: on pts0 (a path with a quarter turn ahead), with
the scroll held at 0, the stored bank angle starting from 0 exceeds
MAX_BANK_ANGLE in magnitude after 14 frames, refuting the claim that the
stored bank angle never exceeds its configured maximum. -/
theorem C5_counterexample :
    MAX_BANK_ANGLE < |(runFrames pts0 (List.replicate 14 inp0) s0).bankAngle| := by
  rw [bank_iter_pts0 14 s0 rfl, show s0.bankAngle = 0 from rfl]
  have hneg : -(2 * Real.pi) + (99 / 100 : ℝ) ^ 14 * (0 + 2 * Real.pi) < 0 := by
    have hp : ((99:ℝ) / 100) ^ 14 < 1 := by norm_num
    nlinarith [Real.pi_pos]
  rw [abs_of_neg hneg, show MAX_BANK_ANGLE = (0.8:ℝ) from rfl]
  nlinarith [Real.pi_gt_d6]

-- C3: rotation composition order, yaw omitted.

/-- C3: the new stored rotation is the slerp of the previous one toward
the target composed by quaternion multiplication in the fixed order base
rotation, then bank rotation about the forward axis, then pitch rotation
about the right axis; the yaw angle is computed and smoothed by its lerp,
but the target rotation does not depend on the stored yaw angle at all
(the yaw rotation is omitted from the composition). -/
theorem C3_rotation_composition (pts : List Vec3) (s : FlightState) (inp : FrameInput) :
    (frameStep pts s inp).currentRotation
      = qSlerp s.currentRotation
          (qMul (qMul (baseRotationAt pts (smoothScroll1 s inp))
            (bankRotation1 pts s inp)) (pitchRotation1 pts s inp)) ROTATION_LERP ∧
    (frameStep pts s inp).yawAngle = mlerp s.yawAngle (targetYaw1 pts s inp) YAW_LERP ∧
    ∀ y : ℝ, targetRotation1 pts { s with yawAngle := y } inp
      = targetRotation1 pts s inp :=
  ⟨rfl, rfl, fun _ => rfl⟩

-- C1: sampling at the progress endpoints.

/-- The cubic at weight 0 is the second control point. -/
theorem cubicCalc_zero (x0 x1 x2 x3 dt0 dt1 dt2 : ℝ) :
    cubicCalc x0 x1 x2 x3 dt0 dt1 dt2 0 = x1 := by
  simp only [cubicCalc]
  ring

/-- The cubic at weight 1 is the third control point (the tangent terms
cancel, independent of the chordal parameters). -/
theorem cubicCalc_one (x0 x1 x2 x3 dt0 dt1 dt2 : ℝ) :
    cubicCalc x0 x1 x2 x3 dt0 dt1 dt2 1 = x2 := by
  simp only [cubicCalc]
  ring

/-- The span at weight 0 is its second control point. -/
theorem catmullSpan_zero (P0 P1 P2 P3 : Vec3) :
    catmullSpan P0 P1 P2 P3 0 = P1 := by
  simp only [catmullSpan, cubicCalc_zero]

/-- The span at weight 1 is its third control point. -/
theorem catmullSpan_one (P0 P1 P2 P3 : Vec3) :
    catmullSpan P0 P1 P2 P3 1 = P2 := by
  simp only [catmullSpan, cubicCalc_one]

/-- The segment body at weight 0 returns the sample at intPoint. -/
theorem catmullSegment_zero (pts : List Vec3) (ip : ℤ) :
    catmullSegment pts ip 0 = getPt pts (ip % (pts.length : ℤ)) := by
  simp only [catmullSegment, catmullSpan_zero]

/-- The segment body at weight 1 returns the sample at intPoint + 1. -/
theorem catmullSegment_one (pts : List Vec3) (ip : ℤ) :
    catmullSegment pts ip 1 = getPt pts ((ip + 1) % (pts.length : ℤ)) := by
  simp only [catmullSegment, catmullSpan_one]

/-- getPoint at t = 0 is the first control point. -/
theorem catmullGetPoint_zero (pts : List Vec3) (h2 : 2 ≤ pts.length) :
    catmullGetPoint pts 0 = getPt pts 0 := by
  have hL : (2:ℤ) ≤ (pts.length : ℤ) := by exact_mod_cast h2
  simp only [catmullGetPoint, mul_zero, Int.floor_zero]
  rw [if_neg (by push_cast; intro h; omega)]
  rw [show (0:ℝ) - ((0:ℤ):ℝ) = 0 by norm_num, catmullSegment_zero, Int.zero_emod]

/-- getPoint at t = 1 is the last control point. -/
theorem catmullGetPoint_one (pts : List Vec3) (h2 : 2 ≤ pts.length) :
    catmullGetPoint pts 1 = getPt pts ((pts.length : ℤ) - 1) := by
  have hL : (2:ℤ) ≤ (pts.length : ℤ) := by exact_mod_cast h2
  have h1 : (⌊((pts.length : ℝ) - 1) * 1⌋ : ℤ) = (pts.length : ℤ) - 1 := by
    rw [show ((pts.length : ℝ) - 1) * 1 = (((pts.length : ℤ) - 1 : ℤ) : ℝ) by
      push_cast; ring, Int.floor_intCast]
  simp only [catmullGetPoint, h1]
  rw [if_pos ⟨by push_cast; ring, trivial⟩, catmullSegment_one]
  congr 1
  rw [show (pts.length : ℤ) - 2 + 1 = (pts.length : ℤ) - 1 by ring]
  exact Int.emod_eq_of_lt (by omega) (by omega)

/-- The JavaScript remainder of an integer by 1 is 0. -/
theorem jsfmod1_intCast (n : ℤ) : jsfmod1 ((n : ℤ) : ℝ) = 0 := by
  rw [jsfmod1, jstrunc]
  split_ifs <;> simp

/-- A lerp at factor 0 is its first endpoint. -/
theorem lerpV_zero (a b : Vec3) : lerpV a b 0 = a := by
  simp [lerpV]

/-- Sampling at progress 0 returns the first sample. -/
theorem samplePosAt_zero (pts : List Vec3) (h2 : 2 ≤ pts.length) :
    samplePosAt pts 0 = getPt pts 0 := by
  have hL : (2:ℤ) ≤ (pts.length : ℤ) := by exact_mod_cast h2
  have hidx : curPointIndexAt pts 0 = 0 := by
    rw [curPointIndexAt, zero_mul, Int.floor_zero]
    omega
  have hmod : jsfmod1 (0:ℝ) = 0 := by simpa using jsfmod1_intCast 0
  have hinterp : interpFactorAt pts 0 = 0 := by
    rw [interpFactorAt, zero_mul, hmod]
  rw [samplePosAt, hinterp, lerpV_zero, curPointAt, hidx]

/-- The index at progress 1 clamps to length - 2. -/
theorem curPointIndexAt_one (pts : List Vec3) (h2 : 2 ≤ pts.length) :
    curPointIndexAt pts 1 = (pts.length : ℤ) - 2 := by
  have hL : (2:ℤ) ≤ (pts.length : ℤ) := by exact_mod_cast h2
  have hp : ((pts.length : ℝ) - 1) = (((pts.length : ℤ) - 1 : ℤ) : ℝ) := by
    push_cast; ring
  rw [curPointIndexAt, one_mul, hp, Int.floor_intCast]
  omega

/-- Sampling at progress 1 returns the second-to-last sample: the
fractional remainder of 1 * (length - 1) is 0, so the lerp sits at the
clamped index length - 2. -/
theorem samplePosAt_one (pts : List Vec3) (h2 : 2 ≤ pts.length) :
    samplePosAt pts 1 = getPt pts ((pts.length : ℤ) - 2) := by
  have hp : (1:ℝ) * ((pts.length : ℝ) - 1) = (((pts.length : ℤ) - 1 : ℤ) : ℝ) := by
    push_cast; ring
  have hinterp : interpFactorAt pts 1 = 0 := by
    rw [interpFactorAt, hp, jsfmod1_intCast]
  rw [samplePosAt, hinterp, lerpV_zero, curPointAt, curPointIndexAt_one pts h2]

/-- Length of getPoints. -/
theorem length_catmullGetPoints (cpts : List Vec3) (n : ℕ) :
    (catmullGetPoints cpts n).length = n + 1 := by
  rw [catmullGetPoints, List.length_map, List.length_range]

/-- Entry i of getPoints is getPoint at i / n. -/
theorem getPt_catmullGetPoints (cpts : List Vec3) (n : ℕ) (i : ℤ)
    (h0 : 0 ≤ i) (hlt : i < (n:ℤ) + 1) :
    getPt (catmullGetPoints cpts n) i
      = catmullGetPoint cpts ((i.toNat : ℝ) / (n : ℝ)) := by
  have hlen : (catmullGetPoints cpts n).length = n + 1 :=
    length_catmullGetPoints cpts n
  rw [getPt_eval _ i h0 (by omega), List.get_eq_getElem]
  simp only [catmullGetPoints]
  rw [List.getElem_map, List.getElem_range]

/-- C1 (amended): for any precomputed sample list of length L at least 2,
sampling at progress 1.0 resolves the index to L - 2 without overflow,
but the returned position is the second-to-last sample (the fractional
remainder at 1.0 is 0), not the last sample; progress 0.0 returns the
first sample, and on a chordal Catmull-Rom sample list the first sample
is exactly the first control point while the LAST sample (not the
progress-1.0 position) equals the last control point. -/
theorem C1_sampling_amended (pts : List Vec3) (h2 : 2 ≤ pts.length)
    (cpts : List Vec3) (n : ℕ) (hc : 2 ≤ cpts.length) (hn : 1 ≤ n) :
    (curPointIndexAt pts 1 = (pts.length : ℤ) - 2 ∧ 0 ≤ curPointIndexAt pts 1) ∧
    samplePosAt pts 1 = getPt pts ((pts.length : ℤ) - 2) ∧
    samplePosAt pts 0 = getPt pts 0 ∧
    samplePosAt (catmullGetPoints cpts n) 0 = getPt cpts 0 ∧
    getPt (catmullGetPoints cpts n) (n : ℤ) = getPt cpts ((cpts.length : ℤ) - 1) := by
  have hL : (2:ℤ) ≤ (pts.length : ℤ) := by exact_mod_cast h2
  have hlen : (catmullGetPoints cpts n).length = n + 1 :=
    length_catmullGetPoints cpts n
  refine ⟨⟨curPointIndexAt_one pts h2, ?_⟩, samplePosAt_one pts h2,
    samplePosAt_zero pts h2, ?_, ?_⟩
  · rw [curPointIndexAt_one pts h2]; omega
  · rw [samplePosAt_zero _ (by omega), getPt_catmullGetPoints cpts n 0 le_rfl (by omega)]
    rw [show ((Int.toNat 0 : ℕ) : ℝ) / (n : ℝ) = 0 by norm_num]
    exact catmullGetPoint_zero cpts hc
  · rw [getPt_catmullGetPoints cpts n (n:ℤ) (by omega) (by omega)]
    rw [show ((Int.toNat (n:ℤ) : ℕ) : ℝ) / (n : ℝ) = 1 by
      rw [Int.toNat_natCast]
      field_simp]
    exact catmullGetPoint_one cpts hc

/-- Square root of 400. -/
theorem sqrt_400 : Real.sqrt 400 = 20 := by
  rw [show (400:ℝ) = 20 ^ 2 by norm_num, Real.sqrt_sq (by norm_num : (0:ℝ) ≤ 20)]

/-- First control point lookup on the two-point curve. -/
theorem getPt_AB_zero : getPt [ctrlA, ctrlB] 0 = ctrlA := by
  rw [getPt_eval _ 0 (by norm_num) (by norm_num)]; rfl

/-- Second control point lookup on the two-point curve. -/
theorem getPt_AB_one : getPt [ctrlA, ctrlB] 1 = ctrlB := by
  rw [getPt_eval _ 1 (by norm_num) (by norm_num)]; rfl

/-- The span through (0,0,20), (0,0,0), (0,0,-20), (0,0,-40) at weight
1/2: all chordal parameters are 20 and the cubic evaluates to the
midpoint (0,0,-10). -/
theorem catmullSpan_eval :
    catmullSpan ⟨0, 0, 20⟩ ⟨0, 0, 0⟩ ⟨0, 0, -20⟩ ⟨0, 0, -40⟩ (1/2)
      = ⟨0, 0, -10⟩ := by
  simp only [catmullSpan]
  rw [show distSqV (⟨0, 0, 20⟩ : Vec3) ⟨0, 0, 0⟩ = 400 by
      norm_num [distSqV, lengthSqV, vsub],
    show distSqV (⟨0, 0, 0⟩ : Vec3) ⟨0, 0, -20⟩ = 400 by
      norm_num [distSqV, lengthSqV, vsub],
    show distSqV (⟨0, 0, -20⟩ : Vec3) ⟨0, 0, -40⟩ = 400 by
      norm_num [distSqV, lengthSqV, vsub], sqrt_400]
  norm_num [cubicCalc]

/-- The middle sample of the two-point chordal curve: the segment body at
intPoint 0, weight 1/2, with reflected boundary points (0,0,20) and
(0,0,-40), evaluates to (0,0,-10). -/
theorem catmullSegment_midAB :
    catmullSegment [ctrlA, ctrlB] 0 (1/2) = ⟨0, 0, -10⟩ := by
  have hl : (([ctrlA, ctrlB] : List Vec3).length : ℤ) = 2 := by norm_num
  simp only [catmullSegment, hl]
  norm_num
  rw [getPt_AB_zero, getPt_AB_one]
  rw [show vadd (vsub ctrlA ctrlB) ctrlA = (⟨0, 0, 20⟩ : Vec3) by
      norm_num [vadd, vsub, ctrlA, ctrlB],
    show vadd (vsub ctrlB ctrlA) ctrlB = (⟨0, 0, -40⟩ : Vec3) by
      norm_num [vadd, vsub, ctrlA, ctrlB],
    show ctrlA = (⟨0, 0, 0⟩ : Vec3) from rfl,
    show ctrlB = (⟨0, 0, -20⟩ : Vec3) from rfl]
  exact catmullSpan_eval

/-- getPoint at t = 1/2 on the two-point curve. -/
theorem catmullGetPoint_midAB :
    catmullGetPoint [ctrlA, ctrlB] (1/2) = ⟨0, 0, -10⟩ := by
  have hfl : ⌊(([ctrlA, ctrlB].length : ℝ) - 1) * (1/2)⌋ = 0 := by norm_num
  simp only [catmullGetPoint, hfl]
  rw [if_neg (by push_cast; norm_num)]
  rw [show (([ctrlA, ctrlB].length : ℝ) - 1) * (1/2) - (((0:ℤ)):ℝ) = 1/2 by
    norm_num]
  exact catmullSegment_midAB

/-- The three samples of the two-point chordal curve. -/
theorem samples3_eval : samples3 = [ctrlA, ⟨0, 0, -10⟩, ctrlB] := by
  rw [samples3]
  simp only [catmullGetPoints]
  rw [show List.range 3 = [0, 1, 2] by norm_num [List.range_succ]]
  simp only [List.map_cons, List.map_nil]
  rw [show ((0:ℕ):ℝ) / ((2:ℕ):ℝ) = 0 by norm_num,
    show ((1:ℕ):ℝ) / ((2:ℕ):ℝ) = 1/2 by norm_num,
    show ((2:ℕ):ℝ) / ((2:ℕ):ℝ) = 1 by norm_num]
  rw [catmullGetPoint_zero _ (by norm_num), catmullGetPoint_one _ (by norm_num),
    catmullGetPoint_midAB, getPt_AB_zero]
  rw [show (([ctrlA, ctrlB].length : ℤ) - 1) = 1 by norm_num, getPt_AB_one]

/-- C1 counterexample: on the chordal Catmull-Rom curve through (0,0,0)
and (0,0,-20) with 3 precomputed samples, sampling at progress exactly
1.0 returns (0,0,-10) — the second-to-last sample — whose distance to the
last control point (0,0,-20) is 10, far beyond the tolerance 1e-3. -/
theorem C1_counterexample :
    samplePosAt samples3 1 = ⟨0, 0, -10⟩ ∧
    ¬(lengthV (vsub (samplePosAt samples3 1) ctrlB) ≤ 1 / 1000) := by
  have hlen : (2:ℕ) ≤ samples3.length := by
    rw [samples3, length_catmullGetPoints]; norm_num
  have hs : samplePosAt samples3 1 = ⟨0, 0, -10⟩ := by
    rw [samplePosAt_one samples3 hlen, samples3_eval]
    rw [show ((([ctrlA, ⟨0, 0, -10⟩, ctrlB] : List Vec3).length : ℤ) - 2) = 1 by
      norm_num]
    rw [getPt_eval _ 1 (by norm_num) (by norm_num)]; rfl
  refine ⟨hs, ?_⟩
  rw [hs, show vsub ⟨0, 0, -10⟩ ctrlB = (⟨0, 0, 10⟩ : Vec3) by
    norm_num [vsub, ctrlB]]
  rw [show lengthV ⟨0, 0, 10⟩ = 10 by
    rw [lengthV, lengthSqV]
    norm_num
    rw [show (100:ℝ) = 10 ^ 2 by norm_num, Real.sqrt_sq (by norm_num : (0:ℝ) ≤ 10)]]
  norm_num

-- C6: quaternion norm machinery.

/-- The squared norm of a quaternion is non-negative. -/
theorem qNormSq_nonneg (q : Quat) : 0 ≤ qNormSq q := by
  simp only [qNormSq]
  nlinarith [mul_self_nonneg q.x, mul_self_nonneg q.y, mul_self_nonneg q.z,
    mul_self_nonneg q.w]

/-- The Hamilton product is norm-multiplicative (the four-square
identity). -/
theorem qMul_normSq (a b : Quat) :
    qNormSq (qMul a b) = qNormSq a * qNormSq b := by
  simp only [qMul, qNormSq]
  ring

/-- Negating a quaternion preserves its squared norm. -/
theorem qNeg_normSq (q : Quat) : qNormSq (qNeg q) = qNormSq q := by
  simp only [qNeg, qNormSq]
  ring

/-- Dot product with a negated argument. -/
theorem qDot_qNeg (p q : Quat) : qDot p (qNeg q) = -qDot p q := by
  simp only [qDot, qNeg]
  ring

/-- setFromAxisAngle on a unit axis yields a unit quaternion. -/
theorem qFromAxisAngle_normSq (axis : Vec3) (angle : ℝ)
    (h : lengthSqV axis = 1) : qNormSq (qFromAxisAngle axis angle) = 1 := by
  have hl : axis.x * axis.x + axis.y * axis.y + axis.z * axis.z = 1 := by
    simpa [lengthSqV] using h
  have hp := Real.sin_sq_add_cos_sq (angle / 2)
  simp only [qFromAxisAngle, qNormSq]
  linear_combination (Real.sin (angle / 2)) ^ 2 * hl + hp

/-- THREE.Quaternion.normalize always returns a unit quaternion (the
zero quaternion becomes the identity). -/
theorem qNormalizeThree_normSq (q : Quat) : qNormSq (qNormalizeThree q) = 1 := by
  rw [qNormalizeThree]
  split_ifs with h
  · simp [qIdentity, qNormSq]
  · have hnn : 0 ≤ qNormSq q := qNormSq_nonneg q
    have hpos : 0 < qNormSq q := by
      rcases lt_or_eq_of_le hnn with h2 | h2
      · exact h2
      · exact absurd (by rw [← h2, Real.sqrt_zero]) h
    have hsq : Real.sqrt (qNormSq q) ^ 2 = qNormSq q := Real.sq_sqrt hnn
    have hform : qNormSq (qScale (1 / Real.sqrt (qNormSq q)) q)
        = (1 / Real.sqrt (qNormSq q)) ^ 2 * qNormSq q := by
      simp only [qNormSq, qScale]
      ring
    rw [hform, one_div, inv_pow, hsq]
    exact inv_mul_cancel₀ (ne_of_gt hpos)

/-- Squared norm of a linear combination of two quaternions. -/
theorem qNormSq_comb (a b : ℝ) (p r : Quat) :
    qNormSq (qAdd (qScale a p) (qScale b r))
      = a ^ 2 * qNormSq p + 2 * a * b * qDot p r + b ^ 2 * qNormSq r := by
  simp only [qNormSq, qAdd, qScale, qDot]
  ring

/-- Sine and cosine of Math.atan2 s c on the unit circle with s > 0 and
c >= 0. -/
theorem jsAtan2_sincos (s c : ℝ) (hs : 0 < s) (hc : 0 ≤ c)
    (h1 : c ^ 2 + s ^ 2 = 1) :
    Real.sin (jsAtan2 s c) = s ∧ Real.cos (jsAtan2 s c) = c := by
  rcases lt_or_eq_of_le hc with hcpos | hc0
  · rw [jsAtan2, if_pos hcpos]
    have hcne : c ≠ 0 := ne_of_gt hcpos
    have h2 : 1 + (s / c) ^ 2 = (1 / c) ^ 2 := by
      field_simp
      linarith
    constructor
    · rw [Real.sin_arctan, h2, Real.sqrt_sq (by positivity)]
      field_simp
    · rw [Real.cos_arctan, h2, Real.sqrt_sq (by positivity)]
      field_simp
  · have hs1 : s = 1 := by nlinarith
    rw [jsAtan2, if_neg (by rw [← hc0]; norm_num), if_neg (by rw [← hc0]; norm_num),
      if_pos hs]
    rw [hs1, ← hc0]
    exact ⟨Real.sin_pi_div_two, Real.cos_pi_div_two⟩

/-- Squared-sine composition identity used by slerp: for angles a and b,
sin a ^ 2 + sin b ^ 2 + 2 sin a sin b cos (a + b) = sin (a + b) ^ 2. -/
theorem sin_comb (a b : ℝ) :
    Real.sin a ^ 2 + Real.sin b ^ 2
      + 2 * Real.sin a * Real.sin b * Real.cos (a + b)
      = Real.sin (a + b) ^ 2 := by
  rw [Real.sin_add, Real.cos_add]
  linear_combination (-(Real.sin a) ^ 2) * Real.sin_sq_add_cos_sq b
    - (Real.sin b) ^ 2 * Real.sin_sq_add_cos_sq a

/-- The post-flip part of THREE.Quaternion.slerp preserves unit norm:
with both quaternions unit and the (non-negative) dot product c, each of
the three branches returns a unit quaternion. -/
theorem slerp_branch (q qm : Quat) (t c : ℝ)
    (hq : qNormSq q = 1) (hqm : qNormSq qm = 1)
    (hdot : qDot q qm = c) (hc : 0 ≤ c) :
    qNormSq
      (if 1 ≤ c then q
       else if 1 - c ^ 2 ≤ numberEPSILON then
         qNormalizeThree (qAdd (qScale (1 - t) q) (qScale t qm))
       else
         qAdd
           (qScale (Real.sin ((1 - t) * jsAtan2 (Real.sqrt (1 - c ^ 2)) c)
             / Real.sqrt (1 - c ^ 2)) q)
           (qScale (Real.sin (t * jsAtan2 (Real.sqrt (1 - c ^ 2)) c)
             / Real.sqrt (1 - c ^ 2)) qm)) = 1 := by
  split_ifs with h1 h2
  · exact hq
  · exact qNormalizeThree_normSq _
  · have hc1 : c < 1 := lt_of_not_le h1
    have heps : numberEPSILON < 1 - c ^ 2 := lt_of_not_le h2
    have hspos : 0 < 1 - c ^ 2 := by
      have : (0:ℝ) < numberEPSILON := by rw [numberEPSILON]; positivity
      linarith
    have hsq : Real.sqrt (1 - c ^ 2) ^ 2 = 1 - c ^ 2 :=
      Real.sq_sqrt (le_of_lt hspos)
    have hsrpos : 0 < Real.sqrt (1 - c ^ 2) := Real.sqrt_pos.mpr hspos
    have hpyth : c ^ 2 + Real.sqrt (1 - c ^ 2) ^ 2 = 1 := by
      rw [hsq]; ring
    obtain ⟨hsin, hcos⟩ := jsAtan2_sincos (Real.sqrt (1 - c ^ 2)) c hsrpos hc hpyth
    rw [qNormSq_comb, hq, hqm, hdot]
    set θ := jsAtan2 (Real.sqrt (1 - c ^ 2)) c with hθ
    rw [← hsin, ← hcos]
    have hsne : Real.sin θ ≠ 0 := by rw [hsin]; exact ne_of_gt hsrpos
    have hsum : (1 - t) * θ + t * θ = θ := by ring
    have hkey := sin_comb ((1 - t) * θ) (t * θ)
    rw [hsum] at hkey
    field_simp
    linear_combination (Real.sin θ ^ 4) * hkey

/-- THREE.Quaternion.slerp preserves unit norm: if the stored and the
target quaternions are unit, the interpolated quaternion is unit. -/
theorem qSlerp_normSq (q qb : Quat) (t : ℝ)
    (hq : qNormSq q = 1) (hqb : qNormSq qb = 1) :
    qNormSq (qSlerp q qb t) = 1 := by
  by_cases ht0 : t = 0
  · simp only [qSlerp, if_pos ht0]; exact hq
  by_cases ht1 : t = 1
  · simp only [qSlerp, if_neg ht0, if_pos ht1]; exact hqb
  simp only [qSlerp, if_neg ht0, if_neg ht1]
  by_cases hneg : q.w * qb.w + q.x * qb.x + q.y * qb.y + q.z * qb.z < 0
  · simp only [if_pos hneg]
    refine slerp_branch q (qNeg qb) t
      (-(q.w * qb.w + q.x * qb.x + q.y * qb.y + q.z * qb.z)) hq
      (by rw [qNeg_normSq]; exact hqb) ?_ (by linarith)
    rw [qDot_qNeg]
    simp only [qDot]
  · simp only [if_neg hneg]
    refine slerp_branch q qb t
      (q.w * qb.w + q.x * qb.x + q.y * qb.y + q.z * qb.z) hq hqb rfl
      (by linarith [not_lt.mp hneg])

/-- Zero squared length characterizes the zero vector. -/
theorem lengthSqV_eq_zero_iff (v : Vec3) : lengthSqV v = 0 ↔ v = vzero := by
  constructor
  · intro h
    by_contra hne
    exact absurd h (ne_of_gt (lengthSqV_pos v hne))
  · intro h
    rw [h]
    simp [lengthSqV, vzero]

/-- Cross product with the world up vector on the left. -/
theorem crossV_worldUp (v : Vec3) : crossV worldUp v = ⟨v.z, 0, -v.x⟩ := by
  simp only [crossV, worldUp]
  norm_num

/-- When cross(worldUp, v) degenerates, v is vertical. -/
theorem lookAt_guard_comp (v : Vec3) (h : lengthSqV (crossV worldUp v) = 0) :
    v.x = 0 ∧ v.z = 0 := by
  rw [crossV_worldUp] at h
  simp only [lengthSqV] at h
  constructor
  · exact mul_self_eq_zero.mp (le_antisymm
      (by nlinarith [mul_self_nonneg v.z]) (mul_self_nonneg v.x))
  · exact mul_self_eq_zero.mp (le_antisymm
      (by nlinarith [mul_self_nonneg v.x]) (mul_self_nonneg v.z))

/-- The z column before the parallel guard is always a unit vector. -/
theorem lookAtZ_unit (eye target : Vec3) : lengthSqV (lookAtZ eye target) = 1 := by
  rw [lookAtZ]
  apply lengthSqV_normalizeV
  split_ifs with h
  · intro hcon
    have hcz := congrArg Vec3.z hcon
    simp [vzero] at hcz
  · exact fun hcon => h ((lengthSqV_eq_zero_iff _).mpr hcon)

/-- The final z column is always a unit vector. -/
theorem lookAtZ2_unit (z2 : Vec3) (hz2 : lengthSqV z2 = 1) :
    lengthSqV (lookAtZ2 worldUp z2) = 1 := by
  rw [lookAtZ2]
  split_ifs with h hup
  · exact absurd hup (by norm_num [worldUp])
  · apply lengthSqV_normalizeV
    obtain ⟨hvx, hvz⟩ := lookAt_guard_comp z2 h
    intro hcon
    have hcz := congrArg Vec3.z hcon
    simp only [vzero] at hcz
    rw [hvz] at hcz
    norm_num at hcz
  · exact hz2

/-- The pre-normalization x column is never the zero vector. -/
theorem lookAtX_ne (z2 : Vec3) : lookAtX worldUp z2 ≠ vzero := by
  rw [lookAtX]
  split_ifs with h
  · obtain ⟨hvx, hvz⟩ := lookAt_guard_comp z2 h
    rw [lookAtZ2, if_pos h, if_neg (by norm_num [worldUp])]
    have hwne : Vec3.mk z2.x z2.y (z2.z + 0.0001) ≠ vzero := by
      intro hcon
      have hcz := congrArg Vec3.z hcon
      simp only [vzero] at hcz
      rw [hvz] at hcz
      norm_num at hcz
    have hlpos : 0 < lengthV (Vec3.mk z2.x z2.y (z2.z + 0.0001)) :=
      lengthV_pos _ hwne
    rw [crossV_worldUp, normalizeV, if_neg (ne_of_gt hlpos)]
    intro hcon
    have hcx := congrArg Vec3.x hcon
    simp only [vzero, vscale] at hcx
    have hzz : z2.z + 0.0001 ≠ 0 := by rw [hvz]; norm_num
    rcases mul_eq_zero.mp hcx with h3 | h3
    · rw [div_eq_zero_iff] at h3
      rcases h3 with h3 | h3
      · norm_num at h3
      · exact absurd h3 (ne_of_gt hlpos)
    · exact hzz h3
  · exact fun hcon => h ((lengthSqV_eq_zero_iff _).mpr hcon)

/-- The normalized x column is orthogonal to the final z column. -/
theorem lookAt_orth (z2 : Vec3) :
    dotV (normalizeV (lookAtX worldUp z2)) (lookAtZ2 worldUp z2) = 0 := by
  obtain ⟨cc, hcc⟩ := normalizeV_eq_vscale (lookAtX worldUp z2)
  rw [hcc, dotV_vscale_left, lookAtX]
  split_ifs with h
  · rw [dotV_crossV_right, mul_zero]
  · rw [lookAtZ2, if_neg h, dotV_crossV_right, mul_zero]

/-- The Matrix4.lookAt basis (with the scene's world up) always has unit
x and z columns, orthogonal to each other, with y their cross product. -/
theorem lookAtBasis_props (eye target : Vec3) :
    lengthSqV (lookAtBasis eye target worldUp).bX = 1 ∧
    lengthSqV (lookAtBasis eye target worldUp).bZ = 1 ∧
    dotV (lookAtBasis eye target worldUp).bX (lookAtBasis eye target worldUp).bZ = 0 ∧
    (lookAtBasis eye target worldUp).bY
      = crossV (lookAtBasis eye target worldUp).bZ (lookAtBasis eye target worldUp).bX := by
  have hz2 := lookAtZ_unit eye target
  exact ⟨lengthSqV_normalizeV _ (lookAtX_ne _), lookAtZ2_unit _ hz2,
    lookAt_orth _, rfl⟩

/-- Trace-positive branch of setFromRotationMatrix preserves unit norm. -/
theorem branch1_u (A B C T u : ℝ) (hu : 0 < u) (huT : u * u = T + 1)
    (key : A ^ 2 + B ^ 2 + C ^ 2 = (3 - T) * (T + 1)) :
    A * (0.5 / u) * (A * (0.5 / u)) + B * (0.5 / u) * (B * (0.5 / u))
      + C * (0.5 / u) * (C * (0.5 / u)) + 0.25 / (0.5 / u) * (0.25 / (0.5 / u)) = 1 := by
  have hune : u ≠ 0 := ne_of_gt hu
  field_simp
  linear_combination (1 / 16 : ℝ) * key + ((u * u - (3 - T)) / 16) * huT

/-- Diagonal branches of setFromRotationMatrix preserve unit norm. -/
theorem branch2_u (A B C r u : ℝ) (hu : 0 < u) (hur : u * u = r)
    (key : A ^ 2 + B ^ 2 + C ^ 2 = r * (4 - r)) :
    0.25 * (2 * u) * (0.25 * (2 * u)) + A / (2 * u) * (A / (2 * u))
      + B / (2 * u) * (B / (2 * u)) + C / (2 * u) * (C / (2 * u)) = 1 := by
  have hune : u ≠ 0 := ne_of_gt hu
  field_simp
  linear_combination key + (u * u + r - 4) * hur

/-- setFromRotationMatrix on an orthonormal right-handed basis (unit x
and z columns, orthogonal, y their cross product) yields a unit
quaternion in each of its four branches. -/
theorem quatFromBasis_normSq (B : Basis3)
    (hx : lengthSqV B.bX = 1) (hz : lengthSqV B.bZ = 1)
    (hxz : dotV B.bX B.bZ = 0) (hy : B.bY = crossV B.bZ B.bX) :
    qNormSq (quatFromBasis B) = 1 := by
  obtain ⟨⟨a, d, g⟩, Y, ⟨c, f, k⟩⟩ := B
  simp only at hy
  subst hy
  simp only [lengthSqV] at hx hz
  simp only [dotV] at hxz
  have K1 : (k * a - c * g) * k - f * (c * d - f * a) = a := by
    linear_combination a * hz - c * hxz
  have K3 : a * (k * a - c * g) - (f * g - k * d) * d = k := by
    linear_combination k * hx - g * hxz
  have hy2 : (f * g - k * d) * (f * g - k * d) + (k * a - c * g) * (k * a - c * g)
      + (c * d - f * a) * (c * d - f * a) = 1 := by
    linear_combination (a * a + d * d + g * g) * hz + hx
      - (a * c + d * f + g * k) * hxz
  have ha1 : a ≤ 1 := by
    nlinarith [mul_self_nonneg d, mul_self_nonneg g, mul_self_nonneg (a - 1)]
  simp only [quatFromBasis, crossV]
  split_ifs with h1 h2 h3
  · -- trace positive
    have hT1 : (0:ℝ) < a + (k * a - c * g) + k + 1 := by linarith
    have hu : Real.sqrt (a + (k * a - c * g) + k + 1)
        * Real.sqrt (a + (k * a - c * g) + k + 1)
        = (a + (k * a - c * g) + k) + 1 := by
      rw [Real.mul_self_sqrt (by linarith)]
    have key : (c * d - f * a - f) ^ 2 + (c - g) ^ 2 + (d - (f * g - k * d)) ^ 2
        = (3 - (a + (k * a - c * g) + k)) * ((a + (k * a - c * g) + k) + 1) := by
      linear_combination hx + hy2 + hz + 2 * K1 + 2 * K3
    simp only [qNormSq]
    linear_combination branch1_u (c * d - f * a - f) (c - g) (d - (f * g - k * d))
      (a + (k * a - c * g) + k) (Real.sqrt (a + (k * a - c * g) + k + 1))
      (Real.sqrt_pos.mpr (by linarith)) hu key
  · -- m11 dominant
    have hr : (0:ℝ) < 1 + a - (k * a - c * g) - k := by
      obtain ⟨h2a, h2b⟩ := h2
      linarith
    have hu : Real.sqrt (1 + a - (k * a - c * g) - k)
        * Real.sqrt (1 + a - (k * a - c * g) - k)
        = 1 + a - (k * a - c * g) - k := Real.mul_self_sqrt (le_of_lt hr)
    have key : (f * g - k * d + d) ^ 2 + (c + g) ^ 2 + (c * d - f * a - f) ^ 2
        = (1 + a - (k * a - c * g) - k) * (4 - (1 + a - (k * a - c * g) - k)) := by
      linear_combination hx + hy2 + hz + 2 * K1 - 2 * K3
    simp only [qNormSq]
    linear_combination branch2_u (f * g - k * d + d) (c + g) (c * d - f * a - f)
      (1 + a - (k * a - c * g) - k) (Real.sqrt (1 + a - (k * a - c * g) - k))
      (Real.sqrt_pos.mpr hr) hu key
  · -- m22 dominant
    have hr : (0:ℝ) < 1 + (k * a - c * g) - a - k := by linarith
    have hu : Real.sqrt (1 + (k * a - c * g) - a - k)
        * Real.sqrt (1 + (k * a - c * g) - a - k)
        = 1 + (k * a - c * g) - a - k := Real.mul_self_sqrt (le_of_lt hr)
    have key : (f * g - k * d + d) ^ 2 + (f + (c * d - f * a)) ^ 2 + (c - g) ^ 2
        = (1 + (k * a - c * g) - a - k) * (4 - (1 + (k * a - c * g) - a - k)) := by
      linear_combination hx + hy2 + hz - 2 * K1 - 2 * K3
    simp only [qNormSq]
    linear_combination branch2_u (f * g - k * d + d) (f + (c * d - f * a)) (c - g)
      (1 + (k * a - c * g) - a - k) (Real.sqrt (1 + (k * a - c * g) - a - k))
      (Real.sqrt_pos.mpr hr) hu key
  · -- m33 dominant
    have hak : a ≤ k := by
      rcases not_and_or.mp h2 with h | h
      · exact le_trans (not_lt.mp h) (not_lt.mp h3)
      · exact not_lt.mp h
    have hr : (0:ℝ) < 1 + k - a - (k * a - c * g) := by
      by_contra hrc
      push_neg at hrc
      have he1 : 1 ≤ k * a - c * g := by linarith
      have hele : k * a - c * g ≤ 1 := by
        nlinarith [hy2, mul_self_nonneg (f * g - k * d),
          mul_self_nonneg (c * d - f * a), he1]
      have hke : k * a - c * g ≤ k := not_lt.mp h3
      have hk1 : k ≤ 1 := by
        nlinarith [hz, mul_self_nonneg c, mul_self_nonneg f, mul_self_nonneg (k - 1)]
      have hT : a + (k * a - c * g) + k ≤ 0 := not_lt.mp h1
      have ham1 : (-1:ℝ) ≤ a := by
        nlinarith [hx, mul_self_nonneg d, mul_self_nonneg g, mul_self_nonneg (a + 1)]
      linarith
    have hu : Real.sqrt (1 + k - a - (k * a - c * g))
        * Real.sqrt (1 + k - a - (k * a - c * g))
        = 1 + k - a - (k * a - c * g) := Real.mul_self_sqrt (le_of_lt hr)
    have key : (c + g) ^ 2 + (f + (c * d - f * a)) ^ 2 + (d - (f * g - k * d)) ^ 2
        = (1 + k - a - (k * a - c * g)) * (4 - (1 + k - a - (k * a - c * g))) := by
      linear_combination hx + hy2 + hz - 2 * K1 + 2 * K3
    simp only [qNormSq]
    linear_combination branch2_u (c + g) (f + (c * d - f * a)) (d - (f * g - k * d))
      (1 + k - a - (k * a - c * g)) (Real.sqrt (1 + k - a - (k * a - c * g)))
      (Real.sqrt_pos.mpr hr) hu key

/-- The base look rotation is always a unit quaternion, for any forward
vector (the lookAt guards make the basis orthonormal even in degenerate
frames). -/
theorem baseRotation_normSq (pts : List Vec3) (p : ℝ) :
    qNormSq (baseRotationAt pts p) = 1 := by
  obtain ⟨h1, h2, h3, h4⟩ := lookAtBasis_props vzero (forwardDirAt pts p)
  exact quatFromBasis_normSq _ h1 h2 h3 h4

-- Evaluation of the degenerate frame on ptsD: the coincident samples
-- make forward, future and right all the zero vector, setFromAxisAngle
-- on the zero axis with the bank lerped exactly to pi gives the zero
-- quaternion as target, and slerp's sincos branch then returns a
-- quaternion of magnitude cos(pi/20) < 1 - 1/200 without renormalizing.

/-- The zero vector is fixed by normalize (the length-zero guard). -/
theorem normalizeV_vzero : normalizeV vzero = vzero := by
  rw [normalizeV, if_pos]
  rw [lengthV, show lengthSqV vzero = 0 by norm_num [lengthSqV, vzero],
    Real.sqrt_zero]

/-- Current index at progress 0 on ptsD. -/
theorem curIdx_ptsD : curPointIndexAt ptsD 0 = 0 := by
  norm_num [curPointIndexAt, ptsD]

/-- Next index at progress 0 on ptsD. -/
theorem nextIdx_ptsD : nextPointIndexAt ptsD 0 = 1 := by
  rw [nextPointIndexAt, curIdx_ptsD]
  norm_num [ptsD]

/-- Future index at progress 0 on ptsD (clamped to the last sample). -/
theorem futureIdx_ptsD : futurePointIndexAt ptsD 0 = 1 := by
  rw [futurePointIndexAt, curIdx_ptsD]
  norm_num [ptsD, LOOK_AHEAD]

/-- curPoint on the degenerate frame. -/
theorem curPoint_ptsD : curPointAt ptsD 0 = vzero := by
  rw [curPointAt, curIdx_ptsD, getPt_eval ptsD 0 (by norm_num) (by norm_num [ptsD])]
  rfl

/-- nextPoint on the degenerate frame. -/
theorem nextPoint_ptsD : nextPointAt ptsD 0 = vzero := by
  rw [nextPointAt, nextIdx_ptsD, getPt_eval ptsD 1 (by norm_num) (by norm_num [ptsD])]
  rfl

/-- futurePoint on the degenerate frame. -/
theorem futurePoint_ptsD : futurePointAt ptsD 0 = vzero := by
  rw [futurePointAt, futureIdx_ptsD, getPt_eval ptsD 1 (by norm_num) (by norm_num [ptsD])]
  rfl

/-- interpolationFactor on the degenerate frame. -/
theorem interp_ptsD : interpFactorAt ptsD 0 = 0 := by
  norm_num [interpFactorAt, jsfmod1, jstrunc, ptsD]

/-- currentPosition on the degenerate frame. -/
theorem samplePos_ptsD : samplePosAt ptsD 0 = vzero := by
  rw [samplePosAt, curPoint_ptsD, nextPoint_ptsD, interp_ptsD]
  simp [lerpV, vzero]

/-- forwardDirection collapses to the zero vector. -/
theorem forwardDir_ptsD : forwardDirAt ptsD 0 = vzero := by
  rw [forwardDirAt, curPoint_ptsD, nextPoint_ptsD,
    show vsub vzero vzero = vzero by simp [vsub, vzero], normalizeV_vzero]

/-- futureDirection collapses to the zero vector. -/
theorem futureDir_ptsD : futureDirAt ptsD 0 = vzero := by
  rw [futureDirAt, futurePoint_ptsD, samplePos_ptsD,
    show vsub vzero vzero = vzero by simp [vsub, vzero], normalizeV_vzero]

/-- The right vector collapses to the zero vector. -/
theorem right_ptsD : rightAt ptsD 0 = vzero := by
  rw [rightAt, forwardDir_ptsD,
    show crossV vzero worldUp = vzero by simp [crossV, worldUp, vzero],
    normalizeV_vzero]

/-- turnDirection is sign(0) = 0 on the degenerate frame. -/
theorem turnDirection_ptsD : turnDirectionAt ptsD 0 = 0 := by
  rw [turnDirectionAt, right_ptsD, futureDir_ptsD,
    show dotV vzero vzero = (0:ℝ) by norm_num [dotV, vzero]]
  rw [jsSign, if_neg (lt_irrefl (0:ℝ)), if_neg (lt_irrefl (0:ℝ))]

/-- The target bank angle vanishes with the zero turn direction. -/
theorem targetBank_ptsD : targetBankAt ptsD 0 = 0 := by
  rw [targetBankAt, turnDirection_ptsD]
  ring

/-- The target pitch vanishes on the flat degenerate frame. -/
theorem targetPitch_ptsD : targetPitchAt ptsD 0 = 0 := by
  rw [targetPitchAt, elevationChangeAt, curPoint_ptsD, nextPoint_ptsD]
  norm_num [vzero, ELEVATION_INFLUENCE, MAX_PITCH_ANGLE]

/-- One BANK_LERP step from 100 * pi / 99 toward the zero target lands
the stored bank exactly on pi. -/
theorem bankAngle1_D : bankAngle1 ptsD sD inp0 = Real.pi := by
  rw [bankAngle1, smoothScroll1_inp0 sD rfl, targetBank_ptsD, mlerp,
    show sD.bankAngle = 100 * Real.pi / 99 from rfl,
    show BANK_LERP = (0.01:ℝ) from rfl]
  ring

/-- The lerped pitch angle stays at zero. -/
theorem pitchAngle1_D : pitchAngle1 ptsD sD inp0 = 0 := by
  rw [pitchAngle1, smoothScroll1_inp0 sD rfl, targetPitch_ptsD, mlerp,
    show sD.pitchAngle = 0 from rfl]
  ring

/-- setFromAxisAngle on the zero axis with angle pi produces the zero
quaternion: the vector part scales the zero axis and the scalar part is
cos(pi/2) = 0. -/
theorem bankRotation1_D : bankRotation1 ptsD sD inp0 = ⟨0, 0, 0, 0⟩ := by
  rw [bankRotation1, smoothScroll1_inp0 sD rfl, forwardDir_ptsD, bankAngle1_D,
    qFromAxisAngle]
  norm_num [vzero, Real.cos_pi_div_two]

/-- The pitch rotation on the degenerate frame is (0,0,0,1). -/
theorem pitchRotation1_D : pitchRotation1 ptsD sD inp0 = ⟨0, 0, 0, 1⟩ := by
  rw [pitchRotation1, smoothScroll1_inp0 sD rfl, right_ptsD, pitchAngle1_D,
    qFromAxisAngle]
  norm_num [vzero]

/-- Multiplying by the zero quaternion on the right annihilates. -/
theorem qMul_zero_right (a : Quat) : qMul a ⟨0, 0, 0, 0⟩ = ⟨0, 0, 0, 0⟩ := by
  simp [qMul]

/-- The degenerate frame's target rotation is the zero quaternion,
whatever the base rotation is. -/
theorem targetRotation1_D : targetRotation1 ptsD sD inp0 = ⟨0, 0, 0, 0⟩ := by
  rw [targetRotation1, bankRotation1_D, pitchRotation1_D, qMul_zero_right]
  simp [qMul]

/-- Slerp from the identity toward the zero quaternion at t =
ROTATION_LERP: the dot product is 0, the half angle is atan2(1, 0) =
pi/2, and the zero target contributes nothing, so the result is
(0, 0, 0, sin(0.9 * pi/2)) = (0, 0, 0, cos(pi/20)) — not renormalized. -/
theorem qSlerp_zero_target :
    qSlerp qIdentity ⟨0, 0, 0, 0⟩ ROTATION_LERP
      = ⟨0, 0, 0, Real.cos (Real.pi / 20)⟩ := by
  rw [show ROTATION_LERP = (0.1:ℝ) from rfl]
  simp only [qSlerp, qIdentity, if_neg (by norm_num : ¬((0.1:ℝ) = 0)),
    if_neg (by norm_num : ¬((0.1:ℝ) = 1))]
  norm_num [numberEPSILON, qNeg, qAdd, qScale, jsAtan2, Real.sqrt_one]
  rw [show (9 / 10 : ℝ) * (Real.pi / 2) = Real.pi / 2 - Real.pi / 20 by ring,
    Real.sin_pi_div_two_sub]

/-- C6, amended: the unconditional unit-norm claim fails on degenerate
frames; under the amendment that the current and next samples are
distinct and the forward direction is not vertical, a frame step keeps a
unit stored orientation exactly unit (in particular its magnitude is 1
within tolerance 1e-6): the slerp of a unit quaternion toward the unit
target (base times bank times pitch, each factor unit) is unit in every
branch, THREE's normalize covering the fallback. -/
theorem C6_orientation_unit_amended (pts : List Vec3) (s : FlightState) (inp : FrameInput)
    (hq : qNormSq s.currentRotation = 1)
    (hfwd : vsub (nextPointAt pts (smoothScroll1 s inp))
        (curPointAt pts (smoothScroll1 s inp)) ≠ vzero)
    (hright : crossV (forwardDirAt pts (smoothScroll1 s inp)) worldUp ≠ vzero) :
    qNormSq ((frameStep pts s inp).currentRotation) = 1 ∧
    |Real.sqrt (qNormSq ((frameStep pts s inp).currentRotation)) - 1|
      ≤ 1 / 1000000 := by
  have hfw1 : lengthSqV (forwardDirAt pts (smoothScroll1 s inp)) = 1 :=
    lengthSqV_normalizeV _ hfwd
  have hr1 : lengthSqV (rightAt pts (smoothScroll1 s inp)) = 1 :=
    lengthSqV_normalizeV _ hright
  have htarget : qNormSq (targetRotation1 pts s inp) = 1 := by
    rw [targetRotation1, qMul_normSq, qMul_normSq, baseRotation_normSq,
      bankRotation1, pitchRotation1, qFromAxisAngle_normSq _ _ hfw1,
      qFromAxisAngle_normSq _ _ hr1]
    norm_num
  have hres : qNormSq (currentRotation1 pts s inp) = 1 :=
    qSlerp_normSq _ _ _ hq htarget
  refine ⟨hres, ?_⟩
  show |Real.sqrt (qNormSq (currentRotation1 pts s inp)) - 1| ≤ 1 / 1000000
  rw [hres, Real.sqrt_one]
  norm_num

/-- Witness for the amended C6 at the concrete state s0 on pts0 with the
scroll held at zero. -/
theorem C6_orientation_unit_amended_witness :
    qNormSq ((frameStep pts0 s0 inp0).currentRotation) = 1 ∧
    |Real.sqrt (qNormSq ((frameStep pts0 s0 inp0).currentRotation)) - 1|
      ≤ 1 / 1000000 :=
  C6_orientation_unit_amended pts0 s0 inp0 (by norm_num [s0, qIdentity, qNormSq])
    (by rw [smoothScroll1_inp0 s0 rfl, nextPoint_pts0, curPoint_pts0];
        norm_num [vsub, vzero, Vec3.mk.injEq])
    (by rw [smoothScroll1_inp0 s0 rfl, forwardDir_pts0];
        norm_num [crossV, worldUp, vzero, Vec3.mk.injEq])

/-- C6 counterexample: on the degenerate path ptsD whose adjacent samples
coincide, from the unit identity orientation with the stored bank at
100 * pi / 99, the frame step stores the quaternion (0, 0, 0,
cos(pi/20)): the zero forward axis makes the axis-angle target the zero
quaternion and slerp's sincos branch does not renormalize, so the stored
magnitude cos(pi/20) <= 1 - 1/200 misses 1 by more than the 1e-6
tolerance and the orientation does not remain unit-length. -/
theorem C6_counterexample :
    qNormSq sD.currentRotation = 1 ∧
    (frameStep ptsD sD inp0).currentRotation
      = ⟨0, 0, 0, Real.cos (Real.pi / 20)⟩ ∧
    ¬ |Real.sqrt (qNormSq ((frameStep ptsD sD inp0).currentRotation)) - 1|
        ≤ 1 / 1000000 := by
  have hrot : (frameStep ptsD sD inp0).currentRotation
      = ⟨0, 0, 0, Real.cos (Real.pi / 20)⟩ := by
    show currentRotation1 ptsD sD inp0 = _
    rw [currentRotation1, targetRotation1_D,
      show sD.currentRotation = qIdentity from rfl]
    exact qSlerp_zero_target
  have hcos_pos : 0 < Real.cos (Real.pi / 20) :=
    Real.cos_pos_of_mem_Ioo
      ⟨by linarith [Real.pi_pos], by linarith [Real.pi_pos]⟩
  have habs : |Real.pi / 20| ≤ Real.pi := by
    rw [abs_of_pos (by positivity)]
    linarith [Real.pi_pos]
  have hb := Real.cos_le_one_sub_mul_cos_sq habs
  have hpine : Real.pi ≠ 0 := ne_of_gt Real.pi_pos
  have hval : 2 / Real.pi ^ 2 * (Real.pi / 20) ^ 2 = 1 / 200 := by
    field_simp
    ring
  have hcos_le : Real.cos (Real.pi / 20) ≤ 1 - 1 / 200 := by
    linarith [hb, hval]
  refine ⟨by norm_num [sD, qIdentity, qNormSq], hrot, ?_⟩
  rw [hrot, show qNormSq (⟨0, 0, 0, Real.cos (Real.pi / 20)⟩ : Quat)
      = Real.cos (Real.pi / 20) * Real.cos (Real.pi / 20) by
    norm_num [qNormSq]]
  rw [Real.sqrt_mul_self (le_of_lt hcos_pos),
    abs_of_neg (by linarith : Real.cos (Real.pi / 20) - 1 < 0)]
  intro hcon
  linarith

/-- Witness for C1 on the two-point chordal curve sampled at three
points. -/
theorem C1_sampling_amended_witness :
    (curPointIndexAt samples3 1 = (samples3.length : ℤ) - 2 ∧
      0 ≤ curPointIndexAt samples3 1) ∧
    samplePosAt samples3 1 = getPt samples3 ((samples3.length : ℤ) - 2) ∧
    samplePosAt samples3 0 = getPt samples3 0 ∧
    samplePosAt (catmullGetPoints [ctrlA, ctrlB] 2) 0 = getPt [ctrlA, ctrlB] 0 ∧
    getPt (catmullGetPoints [ctrlA, ctrlB] 2) ((2:ℕ) : ℤ)
      = getPt [ctrlA, ctrlB] (([ctrlA, ctrlB].length : ℤ) - 1) :=
  C1_sampling_amended samples3
    (by rw [samples3, length_catmullGetPoints]; norm_num)
    [ctrlA, ctrlB] 2 (by norm_num) (by norm_num)

end Portfolio

end
